import Mathlib

/-!
Verification of the Battleship board model (`src/app/main.py`).

The Python program is shallowly embedded below:

* Python `dict` values become association lists (`List (Cell × _)`) whose
  insertion operation overwrites an existing key in place and otherwise
  appends at the end, exactly matching CPython insertion-order semantics.
* Each `Ship(...)` constructor call in Python yields a fresh mutable object;
  we model object identity by the ship's position in the fleet list, and the
  heap by a `List Ship` indexed by those positions.
* A Python statement that can raise an uncaught exception is modelled with
  `Option` (`none` = exception); construction-time validation errors are
  modelled with `Except BattleshipError`.
-/

set_option autoImplicit false

/-- A grid coordinate: a pair of (unbounded) Python integers. -/
abbrev Cell := ℤ × ℤ

/-- The coordinate lies on the 10×10 grid, i.e. both components in [0,9]. -/
def inGrid (c : Cell) : Prop :=
  0 ≤ c.1 ∧ c.1 ≤ 9 ∧ 0 ≤ c.2 ∧ c.2 ≤ 9

instance (c : Cell) : Decidable (inGrid c) := by unfold inGrid; infer_instance

/-- Two cells are within one grid step of each other (diagonals included).
`cellsNear a a` holds, so pairwise non-nearness also rules out overlap. -/
def cellsNear (a b : Cell) : Prop :=
  (a.1 - b.1).natAbs ≤ 1 ∧ (a.2 - b.2).natAbs ≤ 1

instance (a b : Cell) : Decidable (cellsNear a b) := by unfold cellsNear; infer_instance

/-- `class Deck(Enum)` — the three deck states. -/
inductive Deck where
  | ALIVE
  | HIT
  | SUNK
  deriving DecidableEq, Repr

/-- `Deck.next`: walk one step along `(ALIVE, HIT, SUNK)`, saturating at the
last state (`min(current_index + 1, len(states) - 1)`). -/
def Deck.next : Deck → Deck
  | .ALIVE => .HIT
  | .HIT => .SUNK
  | .SUNK => .SUNK

/-- Python-`dict` lookup on an association list. -/
def dictGet? {β : Type} : List (Cell × β) → Cell → Option β
  | [], _ => none
  | p :: rest, c => if p.1 = c then some p.2 else dictGet? rest c

/-- Python-`dict` assignment `m[c] = v`: overwrite the existing entry in
place, otherwise append the new entry at the end. -/
def dictInsert {β : Type} : List (Cell × β) → Cell → β → List (Cell × β)
  | [], c, v => [(c, v)]
  | p :: rest, c, v => if p.1 = c then (c, v) :: rest else p :: dictInsert rest c v

/-- The key list of an association list (Python `dict.keys()`). -/
def dictKeys {β : Type} (m : List (Cell × β)) : List Cell :=
  m.map (fun p => p.1)

/-- Keys of the dictionary are pairwise distinct (a `dict` invariant). -/
def keysNodup {β : Type} (m : List (Cell × β)) : Prop :=
  (dictKeys m).Nodup

/-- The column walk of `Ship.create_decks`:
`column = start[1]; while column <= end[1]: decks[(start[0], column)] = ALIVE`. -/
def walkCols (s e : Cell) : List Cell :=
  (List.range (e.2 - s.2 + 1).toNat).map (fun (k : ℕ) => (s.1, s.2 + (k : ℤ)))

/-- The row walk of `Ship.create_decks`:
`row = start[0]; while row <= end[0]: decks[(row, start[1])] = ALIVE`. -/
def walkRows (s e : Cell) : List Cell :=
  (List.range (e.1 - s.1 + 1).toNat).map (fun (k : ℕ) => (s.1 + (k : ℤ), s.2))

/-- Adding one key to a key list, dict style: repeated insertion keeps the
first occurrence's position. -/
def dictKeysAdd (ks : List Cell) (c : Cell) : List Cell :=
  if c ∈ ks then ks else ks ++ [c]

/-- The key set of the `decks` dict built by `Ship.create_decks`: all cells of
the two start-anchored walks, first occurrences kept.  (Every inserted value
is `ALIVE`, so the dict is its key list paired with the constant `ALIVE`.) -/
def deckCells (s e : Cell) : List Cell :=
  ((walkCols s e) ++ (walkRows s e)).foldl dictKeysAdd []

/-- A `Ship` object: its `decks` dict and its `is_drowned` flag. -/
structure Ship where
  decks : List (Cell × Deck)
  is_drowned : Bool
  deriving DecidableEq, Repr

/-- `Ship.__init__(start, end)`: `decks = create_decks(start, end)` (every
value `ALIVE`), `is_drowned = False`. -/
def Ship.make (s e : Cell) : Ship :=
  ⟨(deckCells s e).map (fun c => (c, Deck.ALIVE)), false⟩

/-- `Ship.get_ship_cells`: the keys of the `decks` dict, in insertion order. -/
def Ship.cells (sh : Ship) : List Cell :=
  dictKeys sh.decks

/-- `Ship.get_deck(row, column)`: `none` models the `KeyError` raised on a
cell the ship does not occupy. -/
def Ship.get_deck (sh : Ship) (c : Cell) : Option Deck :=
  dictGet? sh.decks c

/-- `Ship.fire(row, column)`: no-op when already drowned; otherwise advance
the deck at the cell (`KeyError` → `none` when absent), then, if every deck
equals `HIT`, set `is_drowned` and advance every deck once more. -/
def Ship.fire (sh : Ship) (c : Cell) : Option Ship :=
  if sh.is_drowned then some sh
  else
    match dictGet? sh.decks c with
    | none => none
    | some st =>
      let decks1 := dictInsert sh.decks c st.next
      if decks1.all (fun p => p.2 = Deck.HIT) then
        some ⟨decks1.map (fun p => (p.1, p.2.next)), true⟩
      else
        some ⟨decks1, false⟩

/-- A ship-shaped default used with `List.getD`; never hit on the stated
invariants (its `decks` are empty and its `is_drowned` is `false`). -/
def defaultShip : Ship :=
  ⟨[], false⟩

/-- The validation errors of `main.py` (`ShipsTooCloseError` is declared by
the program but never raised — the placement validator's body is `...`). -/
inductive BattleshipError where
  | shipsTooClose
  | shipTotalCount
  | shipTypesCount (size required : ℕ)
  deriving DecidableEq, Repr

/-- The cell list of the ship built from one endpoint-pair specification. -/
def shipCells (sp : Cell × Cell) : List Cell :=
  deckCells sp.1 sp.2

/-- The inner loop of `Battleship.create_fields`:
`for cell in ship_object.get_ship_cells(): fields[cell] = ship_object`. -/
def addShip (m : List (Cell × ℕ)) (cells : List Cell) (idx : ℕ) : List (Cell × ℕ) :=
  cells.foldl (fun acc c => dictInsert acc c idx) m

/-- The outer loop of `Battleship.create_fields`, ship objects identified by
their position in the fleet list. -/
def create_fieldsAux : List (Cell × ℕ) → ℕ → List (List Cell) → List (Cell × ℕ)
  | m, _, [] => m
  | m, idx, cs :: rest => create_fieldsAux (addShip m cs idx) (idx + 1) rest

/-- `Battleship.create_fields(ships)`: the cell → ship index. -/
def create_fields (specs : List (Cell × Cell)) : List (Cell × ℕ) :=
  create_fieldsAux [] 0 (specs.map shipCells)

/-- `set(self.fields.values())`: the distinct ship objects the index refers
to (deduplicated ship identities). -/
def distinctShips (fields : List (Cell × ℕ)) : List ℕ :=
  (fields.map (fun p => p.2)).dedup

/-- `required_counts = {1: 4, 2: 3, 3: 2, 4: 1}`, in dict iteration order. -/
def required_counts : List (ℕ × ℕ) :=
  [(1, 4), (2, 3), (3, 2), (4, 1)]

/-- The loop of `Battleship._validate_ship_types`: the first size whose count
differs from the required one yields `ShipTypesCountError`. -/
def validate_ship_types_loop (sizes : List ℕ) : List (ℕ × ℕ) → Option BattleshipError
  | [] => none
  | (sz, req) :: rest =>
    if sizes.count sz ≠ req then some (.shipTypesCount sz req)
    else validate_ship_types_loop sizes rest

/-- `Battleship._validate_ship_types`, acting on the sizes of the distinct
ships (`Counter(len(ship) for ship in ships)`). -/
def validate_ship_types (sizes : List ℕ) : Option BattleshipError :=
  validate_ship_types_loop sizes required_counts

/-- `Battleship._validate_ship_placement`: the source body is literally the
`Ellipsis` placeholder (`...`) under a `# check adjacent` comment — it
performs no check and raises nothing. -/
def validate_ship_placement : Option BattleshipError :=
  none

/-- The size list fed to the type validator: `len(ship)` for each distinct
ship referenced by the index. -/
def boardShipSizes (fields : List (Cell × ℕ)) (ships : List Ship) : List ℕ :=
  (distinctShips fields).map (fun i => (ships.getD i defaultShip).decks.length)

/-- `Battleship._validate_field`: count check, then type check, then the
(no-op) placement check; the first failure is reported. -/
def validate_field (fields : List (Cell × ℕ)) (ships : List Ship) : Option BattleshipError :=
  if (distinctShips fields).length ≠ 10 then some .shipTotalCount
  else
    match validate_ship_types (boardShipSizes fields ships) with
    | some e => some e
    | none => validate_ship_placement

/-- A `Battleship` object: the heap of ship objects (identified by fleet
position) and the cell → ship index. -/
structure Battleship where
  ships : List Ship
  fields : List (Cell × ℕ)
  deriving DecidableEq, Repr

/-- `Battleship.__init__`: build every ship, build the index, then run
`_validate_field`; a raised validation error aborts construction. -/
def Battleship.make (specs : List (Cell × Cell)) : Except BattleshipError Battleship :=
  let ships := specs.map (fun sp => Ship.make sp.1 sp.2)
  let fields := create_fields specs
  match validate_field fields ships with
  | some e => .error e
  | none => .ok ⟨ships, fields⟩

/-- `Battleship.fire(location)`: `Miss!` when the cell is not in the index;
otherwise delegate to the owning ship and answer `Sunk!`/`Hit!` from its
`is_drowned` flag.  `none` models an uncaught exception. -/
def Battleship.fire (b : Battleship) (loc : Cell) : Option (String × Battleship) :=
  match dictGet? b.fields loc with
  | some i =>
    match Ship.fire (b.ships.getD i defaultShip) loc with
    | none => none
    | some sh1 =>
      let b1 : Battleship := ⟨b.ships.set i sh1, b.fields⟩
      if sh1.is_drowned then some ("Sunk!", b1) else some ("Hit!", b1)
  | none => some ("Miss!", b)

/-- Fire a sequence of shots at a board, collecting the printed outcomes;
`none` models an uncaught exception at some shot. -/
def runShots : Battleship → List Cell → Option (List String × Battleship)
  | b, [] => some ([], b)
  | b, c :: rest =>
    match b.fire c with
    | none => none
    | some (r, b1) =>
      match runShots b1 rest with
      | none => none
      | some (outs, b2) => some (r :: outs, b2)

/-- Fire a sequence of cells at a single ship object. -/
def shipRun : Ship → List Cell → Option Ship
  | sh, [] => some sh
  | sh, c :: rest =>
    match sh.fire c with
    | none => none
    | some sh1 => shipRun sh1 rest

/-- The constructed board, with a dummy fallback on validation failure
(used only to state concrete evaluations). -/
def makeD (specs : List (Cell × Cell)) : Battleship :=
  match Battleship.make specs with
  | .ok b => b
  | .error _ => ⟨[], []⟩

/-- Whether construction succeeded. -/
def makeOk (specs : List (Cell × Cell)) : Bool :=
  match Battleship.make specs with
  | .ok _ => true
  | .error _ => false

/-- The reference fleet from the program's demo driver. -/
def refFleet : List (Cell × Cell) :=
  [((2, 0), (2, 3)),
   ((4, 5), (4, 6)),
   ((3, 8), (3, 9)),
   ((6, 0), (8, 0)),
   ((6, 4), (6, 6)),
   ((6, 8), (6, 9)),
   ((9, 9), (9, 9)),
   ((9, 5), (9, 5)),
   ((9, 3), (9, 3)),
   ((9, 7), (9, 7))]

/-- A fleet with correct count and composition in which the two 1-cell ships
at (5,5) and (5,6) touch (and also touch the 2-cell ship at (4,5)-(4,6)). -/
def c1Fleet : List (Cell × Cell) :=
  [((2, 0), (2, 3)),
   ((6, 0), (8, 0)),
   ((6, 4), (6, 6)),
   ((4, 5), (4, 6)),
   ((3, 8), (3, 9)),
   ((6, 8), (6, 9)),
   ((5, 5), (5, 5)),
   ((5, 6), (5, 6)),
   ((9, 3), (9, 3)),
   ((9, 7), (9, 7))]

/-- A fleet with correct count and composition in which the 2-cell ships at
positions 3 and 4 overlap on cell (0,1); the index maps (0,1) to ship 4. -/
def c4Fleet : List (Cell × Cell) :=
  [((2, 0), (2, 3)),
   ((6, 0), (8, 0)),
   ((6, 4), (6, 6)),
   ((0, 0), (0, 1)),
   ((0, 1), (0, 2)),
   ((6, 8), (6, 9)),
   ((9, 1), (9, 1)),
   ((9, 3), (9, 3)),
   ((9, 5), (9, 5)),
   ((9, 7), (9, 7))]

/-- The reference fleet with one 1-cell ship removed: only 9 ships. -/
def nineFleet : List (Cell × Cell) :=
  [((2, 0), (2, 3)),
   ((4, 5), (4, 6)),
   ((3, 8), (3, 9)),
   ((6, 0), (8, 0)),
   ((6, 4), (6, 6)),
   ((6, 8), (6, 9)),
   ((9, 9), (9, 9)),
   ((9, 5), (9, 5)),
   ((9, 3), (9, 3))]


/-- The index entries contributed by consecutive ships with pairwise-disjoint
nonoverwritten footprints, starting at ship number `idx`. -/
def blocksFrom : ℕ → List (List Cell) → List (Cell × ℕ)
  | _, [] => []
  | idx, cs :: rest => cs.map (fun c => (c, idx)) ++ blocksFrom (idx + 1) rest

/-- Every index entry points at an existing ship that occupies the cell. -/
def BoardInv (b : Battleship) : Prop :=
  ∀ p ∈ b.fields, p.2 < b.ships.length ∧ p.1 ∈ dictKeys (b.ships.getD p.2 defaultShip).decks

/-- The required multiset of ship sizes, as a list: four 1-deck, three 2-deck,
two 3-deck and one 4-deck ship. -/
def requiredSizes : List ℕ :=
  [1, 1, 1, 1, 2, 2, 2, 3, 3, 4]

/-- The ship state holding the given cells, the given deck value at every
fired cell and `ALIVE` elsewhere, not drowned. -/
def markedShip (cells fired : List Cell) : Ship :=
  ⟨cells.map (fun d => (d, if d ∈ fired then Deck.HIT else Deck.ALIVE)), false⟩

/-- The fully sunk state of a ship over the given cells. -/
def sunkShip (cells : List Cell) : Ship :=
  ⟨cells.map (fun d => (d, Deck.SUNK)), true⟩

/-- A default endpoint-pair for `List.getD` on fleet lists. -/
def defaultSpec : Cell × Cell :=
  (((0 : ℤ), (0 : ℤ)), ((0 : ℤ), (0 : ℤ)))

/-- A permutation (reversed order) of the demo 4-cell ship's footprint. -/
def refQuadPerm : List Cell :=
  [((2 : ℤ), (3 : ℤ)), ((2 : ℤ), (2 : ℤ)), ((2 : ℤ), (1 : ℤ)), ((2 : ℤ), (0 : ℤ))]

/-- A fresh two-deck ship on (0,0)-(0,1), for concrete witnesses. -/
def twoShip : Ship :=
  ⟨[(((0 : ℤ), (0 : ℤ)), Deck.ALIVE), (((0 : ℤ), (1 : ℤ)), Deck.ALIVE)], false⟩

/-- A one-ship board whose single ship is already drowned, with its cell
fully sunk; a concrete state for the idempotence property. -/
def sunkBoard : Battleship :=
  ⟨[⟨[(((0 : ℤ), (0 : ℤ)), Deck.SUNK)], true⟩], [(((0 : ℤ), (0 : ℤ)), 0)]⟩

/-! ### Association-list (Python `dict`) lemmas -/

theorem dictKeys_nil {β : Type} : dictKeys ([] : List (Cell × β)) = [] := rfl

theorem dictKeys_cons {β : Type} (p : Cell × β) (m : List (Cell × β)) :
    dictKeys (p :: m) = p.1 :: dictKeys m := rfl

theorem dictGet?_insert_self {β : Type} (m : List (Cell × β)) (c : Cell) (v : β) :
    dictGet? (dictInsert m c v) c = some v := by
  induction m with
  | nil => simp [dictInsert, dictGet?]
  | cons p rest ih =>
    by_cases h : p.1 = c
    · simp [dictInsert, h, dictGet?]
    · simp [dictInsert, h, dictGet?, ih]

theorem dictGet?_insert_ne {β : Type} (m : List (Cell × β)) (c c' : Cell) (v : β)
    (h : c' ≠ c) :
    dictGet? (dictInsert m c v) c' = dictGet? m c' := by
  have h1 : ¬ c = c' := fun he => h he.symm
  induction m with
  | nil => simp [dictInsert, dictGet?, h1]
  | cons p rest ih =>
    by_cases hp : p.1 = c
    · simp [dictInsert, hp, dictGet?, h1]
    · simp [dictInsert, hp, dictGet?, ih]

theorem dictInsert_not_mem {β : Type} (m : List (Cell × β)) (c : Cell) (v : β)
    (h : c ∉ dictKeys m) :
    dictInsert m c v = m ++ [(c, v)] := by
  induction m with
  | nil => simp [dictInsert]
  | cons p rest ih =>
    simp only [dictKeys_cons, List.mem_cons, not_or] at h
    have h1 : ¬ p.1 = c := fun he => h.1 he.symm
    simp [dictInsert, h1, ih h.2]

theorem dictKeys_insert_mem {β : Type} (m : List (Cell × β)) (c : Cell) (v : β)
    (h : c ∈ dictKeys m) :
    dictKeys (dictInsert m c v) = dictKeys m := by
  induction m with
  | nil => simp [dictKeys_nil] at h
  | cons p rest ih =>
    by_cases hp : p.1 = c
    · simp [dictInsert, hp, dictKeys_cons]
    · have hc : c ∈ dictKeys rest := by
        rcases List.mem_cons.mp (by simpa [dictKeys_cons] using h) with h1 | h1
        · exact absurd h1.symm hp
        · exact h1
      simp only [dictInsert, if_neg hp, dictKeys_cons, ih hc]

theorem dictKeys_insert_not_mem {β : Type} (m : List (Cell × β)) (c : Cell) (v : β)
    (h : c ∉ dictKeys m) :
    dictKeys (dictInsert m c v) = dictKeys m ++ [c] := by
  rw [dictInsert_not_mem m c v h]
  simp [dictKeys]

theorem dictGet?_eq_none_iff {β : Type} (m : List (Cell × β)) (c : Cell) :
    dictGet? m c = none ↔ c ∉ dictKeys m := by
  induction m with
  | nil => simp [dictGet?, dictKeys_nil]
  | cons p rest ih =>
    by_cases hp : p.1 = c
    · simp [dictGet?, hp, dictKeys_cons]
    · have h1 : ¬ c = p.1 := fun he => hp he.symm
      simp [dictGet?, hp, dictKeys_cons, h1, ih]

theorem dictGet?_isSome_iff {β : Type} (m : List (Cell × β)) (c : Cell) :
    (dictGet? m c).isSome = true ↔ c ∈ dictKeys m := by
  rcases h : dictGet? m c with _ | v
  · simpa using (dictGet?_eq_none_iff m c).mp h
  · simp only [Option.isSome_some, true_iff]
    by_contra hmem
    rw [(dictGet?_eq_none_iff m c).mpr hmem] at h
    exact Option.noConfusion h

theorem mem_of_dictGet?_eq_some {β : Type} (m : List (Cell × β)) (c : Cell) (v : β)
    (h : dictGet? m c = some v) :
    (c, v) ∈ m := by
  induction m with
  | nil => simp [dictGet?] at h
  | cons p rest ih =>
    obtain ⟨a, b⟩ := p
    by_cases hp : a = c
    · subst hp
      simp only [dictGet?, if_pos rfl] at h
      obtain rfl : b = v := Option.some_injective _ h
      exact List.mem_cons_self _ _
    · simp only [dictGet?, if_neg hp] at h
      exact List.mem_cons_of_mem _ (ih h)

theorem dictGet?_of_mem {β : Type} (m : List (Cell × β)) (c : Cell) (v : β)
    (hnd : keysNodup m) (h : (c, v) ∈ m) :
    dictGet? m c = some v := by
  induction m with
  | nil => simp at h
  | cons p rest ih =>
    obtain ⟨a, b⟩ := p
    simp only [keysNodup, dictKeys_cons, List.nodup_cons] at hnd
    rcases List.mem_cons.mp h with h1 | h1
    · have ha : c = a := congrArg Prod.fst h1
      have hb : v = b := congrArg Prod.snd h1
      subst ha
      subst hb
      simp [dictGet?]
    · have hne : a ≠ c := by
        intro he
        subst he
        exact hnd.1 (by
          have : (fun q : Cell × β => q.1) (a, v) ∈ dictKeys rest :=
            List.mem_map_of_mem _ h1
          simpa [dictKeys] using this)
      simp [dictGet?, hne, ih hnd.2 h1]

theorem keysNodup_insert {β : Type} (m : List (Cell × β)) (c : Cell) (v : β)
    (h : keysNodup m) :
    keysNodup (dictInsert m c v) := by
  by_cases hc : c ∈ dictKeys m
  · rw [keysNodup, dictKeys_insert_mem m c v hc]
    exact h
  · rw [keysNodup, dictKeys_insert_not_mem m c v hc]
    simpa [List.nodup_append] using ⟨h, hc⟩

theorem mem_dictInsert {β : Type} (m : List (Cell × β)) (c : Cell) (v : β) (p : Cell × β)
    (h : p ∈ dictInsert m c v) :
    p ∈ m ∨ p = (c, v) := by
  induction m with
  | nil =>
    simp only [dictInsert, List.mem_singleton] at h
    exact Or.inr h
  | cons q rest ih =>
    by_cases hq : q.1 = c
    · simp only [dictInsert, if_pos hq] at h
      rcases List.mem_cons.mp h with h1 | h1
      · exact Or.inr h1
      · exact Or.inl (List.mem_cons_of_mem _ h1)
    · simp only [dictInsert, if_neg hq] at h
      rcases List.mem_cons.mp h with h1 | h1
      · exact Or.inl (by rw [h1]; exact List.mem_cons_self _ _)
      · rcases ih h1 with h2 | h2
        · exact Or.inl (List.mem_cons_of_mem _ h2)
        · exact Or.inr h2

/-! ### Deck-dict lemmas for ships whose decks are `cells.map (c, f c)` -/

theorem dictGet?_map_cells {f : Cell → Deck} (cells : List Cell) (c : Cell) :
    dictGet? (cells.map (fun d => (d, f d))) c
      = if c ∈ cells then some (f c) else none := by
  induction cells with
  | nil => simp [dictGet?]
  | cons d t ih =>
    by_cases hd : d = c
    · subst hd
      simp [dictGet?]
    · have h1 : ¬ c = d := fun he => hd he.symm
      simp [dictGet?, hd, h1, ih]

theorem dictKeys_map_cells {f : Cell → Deck} (cells : List Cell) :
    dictKeys (cells.map (fun d => (d, f d))) = cells := by
  induction cells with
  | nil => rfl
  | cons d t ih => simpa [dictKeys] using ih

theorem dictInsert_map_cells {f : Cell → Deck} (cells : List Cell) (c : Cell) (v : Deck)
    (hnd : cells.Nodup) (hc : c ∈ cells) :
    dictInsert (cells.map (fun d => (d, f d))) c v
      = cells.map (fun d => (d, if d = c then v else f d)) := by
  induction cells with
  | nil => simp at hc
  | cons d t ih =>
    rcases List.nodup_cons.mp hnd with ⟨hdt, hnt⟩
    by_cases hd : d = c
    · subst hd
      simp only [List.map_cons, dictInsert, if_pos rfl, if_pos]
      have : t.map (fun x => (x, f x)) = t.map (fun x => (x, if x = d then v else f x)) := by
        apply List.map_congr_left
        intro x hx
        have : x ≠ d := fun he => hdt (he ▸ hx)
        simp [this]
      rw [this]
    · have hct : c ∈ t := by
        rcases List.mem_cons.mp hc with h1 | h1
        · exact absurd h1.symm hd
        · exact h1
      simp only [List.map_cons, dictInsert, if_neg hd, ih hnt hct, if_neg hd]

theorem map_next_map_cells {f : Cell → Deck} (cells : List Cell) :
    (cells.map (fun d => (d, f d))).map (fun p => (p.1, p.2.next))
      = cells.map (fun d => (d, (f d).next)) := by
  simp [List.map_map, Function.comp]

theorem all_map_cells {f : Cell → Deck} (cells : List Cell) (pred : Deck → Bool) :
    ((cells.map (fun d => (d, f d))).all (fun p => pred p.2))
      = cells.all (fun d => pred (f d)) := by
  induction cells with
  | nil => rfl
  | cons d t ih => simp [List.all_cons, ih]

/-! ### Walk and `deckCells` lemmas -/

theorem mem_walkCols {s e c : Cell} :
    c ∈ walkCols s e ↔ c.1 = s.1 ∧ s.2 ≤ c.2 ∧ c.2 ≤ e.2 := by
  constructor
  · intro h
    obtain ⟨k, hk, he⟩ := List.mem_map.mp h
    have hk2 : k < (e.2 - s.2 + 1).toNat := List.mem_range.mp hk
    have h1 : c.1 = s.1 := by rw [← he]
    have h2 : c.2 = s.2 + (k : ℤ) := by rw [← he]
    exact ⟨h1, by omega, by omega⟩
  · rintro ⟨h1, h2, h3⟩
    apply List.mem_map.mpr
    refine ⟨(c.2 - s.2).toNat, List.mem_range.mpr (by omega), ?_⟩
    have h4 : s.2 + (((c.2 - s.2).toNat : ℕ) : ℤ) = c.2 := by omega
    rw [h4, ← h1]

theorem mem_walkRows {s e c : Cell} :
    c ∈ walkRows s e ↔ c.2 = s.2 ∧ s.1 ≤ c.1 ∧ c.1 ≤ e.1 := by
  constructor
  · intro h
    obtain ⟨k, hk, he⟩ := List.mem_map.mp h
    have hk2 : k < (e.1 - s.1 + 1).toNat := List.mem_range.mp hk
    have h1 : c.2 = s.2 := by rw [← he]
    have h2 : c.1 = s.1 + (k : ℤ) := by rw [← he]
    exact ⟨h1, by omega, by omega⟩
  · rintro ⟨h1, h2, h3⟩
    apply List.mem_map.mpr
    refine ⟨(c.1 - s.1).toNat, List.mem_range.mpr (by omega), ?_⟩
    have h4 : s.1 + (((c.1 - s.1).toNat : ℕ) : ℤ) = c.1 := by omega
    rw [h4, ← h1]

theorem nodup_walkCols (s e : Cell) : (walkCols s e).Nodup := by
  unfold walkCols
  apply List.Nodup.map _ (List.nodup_range _)
  intro k k' he
  have h2 : s.2 + (k : ℤ) = s.2 + (k' : ℤ) := congrArg Prod.snd he
  omega

theorem nodup_walkRows (s e : Cell) : (walkRows s e).Nodup := by
  unfold walkRows
  apply List.Nodup.map _ (List.nodup_range _)
  intro k k' he
  have h2 : s.1 + (k : ℤ) = s.1 + (k' : ℤ) := congrArg Prod.fst he
  omega

theorem length_walkCols (s e : Cell) : (walkCols s e).length = (e.2 - s.2 + 1).toNat := by
  rw [walkCols, List.length_map, List.length_range]

theorem length_walkRows (s e : Cell) : (walkRows s e).length = (e.1 - s.1 + 1).toNat := by
  rw [walkRows, List.length_map, List.length_range]

theorem mem_dictKeysAdd {ks : List Cell} {c x : Cell} :
    x ∈ dictKeysAdd ks c ↔ x ∈ ks ∨ x = c := by
  by_cases h : c ∈ ks
  · simp only [dictKeysAdd, if_pos h]
    constructor
    · exact Or.inl
    · rintro (hx | rfl)
      · exact hx
      · exact h
  · simp [dictKeysAdd, if_neg h]

theorem nodup_dictKeysAdd {ks : List Cell} {c : Cell} (h : ks.Nodup) :
    (dictKeysAdd ks c).Nodup := by
  by_cases hc : c ∈ ks
  · simpa [dictKeysAdd, if_pos hc] using h
  · simp [dictKeysAdd, if_neg hc, List.nodup_append, h, hc]

theorem mem_foldl_dictKeysAdd (l : List Cell) (acc : List Cell) (x : Cell) :
    x ∈ l.foldl dictKeysAdd acc ↔ x ∈ acc ∨ x ∈ l := by
  induction l generalizing acc with
  | nil => simp
  | cons c t ih =>
    simp only [List.foldl_cons, ih, mem_dictKeysAdd, List.mem_cons]
    tauto

theorem nodup_foldl_dictKeysAdd (l : List Cell) (acc : List Cell) (h : acc.Nodup) :
    (l.foldl dictKeysAdd acc).Nodup := by
  induction l generalizing acc with
  | nil => simpa
  | cons c t ih => exact ih _ (nodup_dictKeysAdd h)

theorem foldl_dictKeysAdd_fresh (l : List Cell) :
    ∀ acc, l.Nodup → (∀ x ∈ l, x ∉ acc) → l.foldl dictKeysAdd acc = acc ++ l := by
  induction l with
  | nil => intro acc _ _; simp
  | cons c t ih =>
    intro acc hnd hf
    rcases List.nodup_cons.mp hnd with ⟨hct, hnt⟩
    have h1 : dictKeysAdd acc c = acc ++ [c] := by
      simp [dictKeysAdd, if_neg (hf c (List.mem_cons_self _ _))]
    have hfr : ∀ x ∈ t, x ∉ acc ++ [c] := by
      intro x hx
      simp only [List.mem_append, List.mem_singleton, not_or]
      exact ⟨hf x (List.mem_cons_of_mem _ hx), fun he => hct (he ▸ hx)⟩
    simp only [List.foldl_cons, h1]
    rw [ih (acc ++ [c]) hnt hfr]
    simp

theorem deckCells_nodup (s e : Cell) : (deckCells s e).Nodup :=
  nodup_foldl_dictKeysAdd _ _ (List.nodup_nil)

theorem mem_deckCells {s e c : Cell} :
    c ∈ deckCells s e ↔ c ∈ walkCols s e ∨ c ∈ walkRows s e := by
  simp [deckCells, mem_foldl_dictKeysAdd]

/-! ### List `set`/`getD` utilities -/

theorem getD_set_self {α : Type} (l : List α) (i : ℕ) (x d : α) (h : i < l.length) :
    (l.set i x).getD i d = x := by
  induction l generalizing i with
  | nil => simp at h
  | cons a t ih =>
    cases i with
    | zero => simp [List.set, List.getD]
    | succ j =>
      simp only [List.set, List.getD_cons_succ]
      exact ih j (by simpa using h)

theorem getD_set_ne {α : Type} (l : List α) (i j : ℕ) (x d : α) (h : i ≠ j) :
    (l.set i x).getD j d = l.getD j d := by
  induction l generalizing i j with
  | nil => simp [List.set]
  | cons a t ih =>
    cases i with
    | zero =>
      cases j with
      | zero => exact absurd rfl h
      | succ j' => simp [List.set, List.getD_cons_succ]
    | succ i' =>
      cases j with
      | zero => simp [List.set, List.getD_cons_zero]
      | succ j' =>
        simp only [List.set, List.getD_cons_succ]
        exact ih i' j' (fun he => h (he ▸ rfl))

theorem set_getD_self {α : Type} (l : List α) (i : ℕ) (d : α) (h : i < l.length) :
    l.set i (l.getD i d) = l := by
  induction l generalizing i with
  | nil => simp at h
  | cons a t ih =>
    cases i with
    | zero => simp [List.set, List.getD]
    | succ j =>
      simp only [List.set, List.getD_cons_succ, List.cons.injEq, true_and]
      exact ih j (by simpa using h)

theorem getD_map_make (specs : List (Cell × Cell)) (i : ℕ) (h : i < specs.length) :
    (specs.map (fun sp => Ship.make sp.1 sp.2)).getD i defaultShip
      = Ship.make (specs.getD i ((0, 0), (0, 0))).1 (specs.getD i ((0, 0), (0, 0))).2 := by
  induction specs generalizing i with
  | nil => simp at h
  | cons sp t ih =>
    cases i with
    | zero => simp [List.getD]
    | succ j =>
      simp only [List.map_cons, List.getD_cons_succ]
      exact ih j (by simpa using h)

theorem map_getD_range {α : Type} (l : List α) (d : α) :
    (List.range l.length).map (fun i => l.getD i d) = l := by
  induction l with
  | nil => simp
  | cons a t ih =>
    rw [List.length_cons, List.range_succ_eq_map, List.map_cons, List.map_map]
    have h2 : List.map ((fun i => (a :: t).getD i d) ∘ Nat.succ) (List.range t.length)
        = List.map (fun i => t.getD i d) (List.range t.length) := by
      apply List.map_congr_left
      intro i _
      simp [Function.comp, List.getD_cons_succ]
    rw [h2, ih]
    simp [List.getD_cons_zero]

/-! ### Structural lemmas for `create_fields` -/

theorem mem_addShip (m : List (Cell × ℕ)) (cs : List Cell) (idx : ℕ) (p : Cell × ℕ)
    (h : p ∈ addShip m cs idx) :
    p ∈ m ∨ (p.1 ∈ cs ∧ p.2 = idx) := by
  induction cs generalizing m with
  | nil => exact Or.inl h
  | cons c t ih =>
    rcases ih (dictInsert m c idx) h with h1 | h1
    · rcases mem_dictInsert m c idx p h1 with h2 | h2
      · exact Or.inl h2
      · exact Or.inr ⟨by rw [h2]; exact List.mem_cons_self _ _, by rw [h2]⟩
    · exact Or.inr ⟨List.mem_cons_of_mem _ h1.1, h1.2⟩

theorem mem_create_fieldsAux (ls : List (List Cell)) (m : List (Cell × ℕ)) (idx : ℕ)
    (p : Cell × ℕ) (h : p ∈ create_fieldsAux m idx ls) :
    p ∈ m ∨ ∃ j, j < ls.length ∧ p.2 = idx + j ∧ p.1 ∈ ls.getD j [] := by
  induction ls generalizing m idx with
  | nil => exact Or.inl h
  | cons cs rest ih =>
    rcases ih (addShip m cs idx) (idx + 1) h with h1 | h1
    · rcases mem_addShip m cs idx p h1 with h2 | h2
      · exact Or.inl h2
      · exact Or.inr ⟨0, by simp, by simpa using h2.2, by simpa using h2.1⟩
    · obtain ⟨j, hj, hv, hm⟩ := h1
      exact Or.inr ⟨j + 1, by simpa using hj, by omega, by simpa using hm⟩

theorem keysNodup_addShip (m : List (Cell × ℕ)) (cs : List Cell) (idx : ℕ)
    (h : keysNodup m) :
    keysNodup (addShip m cs idx) := by
  induction cs generalizing m with
  | nil => exact h
  | cons c t ih => exact ih (dictInsert m c idx) (keysNodup_insert m c idx h)

theorem keysNodup_create_fieldsAux (ls : List (List Cell)) (m : List (Cell × ℕ)) (idx : ℕ)
    (h : keysNodup m) :
    keysNodup (create_fieldsAux m idx ls) := by
  induction ls generalizing m idx with
  | nil => exact h
  | cons cs rest ih => exact ih (addShip m cs idx) (idx + 1) (keysNodup_addShip m cs idx h)

theorem keysNodup_create_fields (specs : List (Cell × Cell)) :
    keysNodup (create_fields specs) :=
  keysNodup_create_fieldsAux _ [] 0 (by simp [keysNodup, dictKeys])

theorem addShip_fresh (m : List (Cell × ℕ)) (cs : List Cell) (idx : ℕ)
    (hnd : cs.Nodup) (hf : ∀ c ∈ cs, c ∉ dictKeys m) :
    addShip m cs idx = m ++ cs.map (fun c => (c, idx)) := by
  induction cs generalizing m with
  | nil => simp [addShip]
  | cons c t ih =>
    rcases List.nodup_cons.mp hnd with ⟨hct, hnt⟩
    have h1 : dictInsert m c idx = m ++ [(c, idx)] :=
      dictInsert_not_mem m c idx (hf c (List.mem_cons_self _ _))
    have hft : ∀ x ∈ t, x ∉ dictKeys (m ++ [(c, idx)]) := by
      intro x hx
      simp only [dictKeys, List.map_append, List.mem_append, List.map_cons, List.map_nil,
        List.mem_singleton, not_or]
      exact ⟨by simpa [dictKeys] using hf x (List.mem_cons_of_mem _ hx),
        fun he => hct (he ▸ hx)⟩
    have : addShip m (c :: t) idx = addShip (dictInsert m c idx) t idx := rfl
    rw [this, h1, ih (m ++ [(c, idx)]) hnt hft]
    simp

theorem getD_map_lt {α β : Type} (f : α → β) (l : List α) (i : ℕ) (d1 : β) (d : α)
    (h : i < l.length) :
    (l.map f).getD i d1 = f (l.getD i d) := by
  induction l generalizing i with
  | nil => simp at h
  | cons a t ih =>
    cases i with
    | zero => simp [List.getD]
    | succ j =>
      simp only [List.map_cons, List.getD_cons_succ]
      exact ih j (by simpa using h)

theorem mem_blocksFrom (ls : List (List Cell)) (idx : ℕ) (p : Cell × ℕ) :
    p ∈ blocksFrom idx ls
      ↔ ∃ j, j < ls.length ∧ p.2 = idx + j ∧ p.1 ∈ ls.getD j [] := by
  induction ls generalizing idx with
  | nil => simp [blocksFrom]
  | cons cs rest ih =>
    simp only [blocksFrom, List.mem_append, List.mem_map, ih]
    constructor
    · rintro (⟨c, hc, rfl⟩ | ⟨j, hj, hv, hm⟩)
      · exact ⟨0, by simp, by simp, by simpa using hc⟩
      · exact ⟨j + 1, by simpa using hj, by omega, by simpa using hm⟩
    · rintro ⟨j, hj, hv, hm⟩
      cases j with
      | zero =>
        left
        refine ⟨p.1, by simpa using hm, ?_⟩
        have h0 : p.2 = idx := by omega
        exact congrArg (Prod.mk p.1) h0.symm
      | succ j' =>
        right
        exact ⟨j', by simpa using hj, by omega, by simpa using hm⟩

theorem length_blocksFrom (ls : List (List Cell)) (idx : ℕ) :
    (blocksFrom idx ls).length = (ls.map List.length).sum := by
  induction ls generalizing idx with
  | nil => simp [blocksFrom]
  | cons cs rest ih => simp [blocksFrom, ih]

theorem dictKeys_map_const {β : Type} (cs : List Cell) (v : β) :
    dictKeys (cs.map (fun c => (c, v))) = cs := by
  induction cs with
  | nil => rfl
  | cons c t ih => simpa [dictKeys] using ih

theorem dictKeys_append {β : Type} (m1 m2 : List (Cell × β)) :
    dictKeys (m1 ++ m2) = dictKeys m1 ++ dictKeys m2 := by
  simp [dictKeys]

theorem dictKeys_blocksFrom (ls : List (List Cell)) (idx : ℕ) :
    dictKeys (blocksFrom idx ls) = ls.flatten := by
  induction ls generalizing idx with
  | nil => simp [blocksFrom, dictKeys]
  | cons cs rest ih =>
    rw [blocksFrom, dictKeys_append, dictKeys_map_const, ih (idx + 1), List.flatten_cons]

theorem create_fieldsAux_disjoint (ls : List (List Cell)) :
    ∀ m idx, (∀ cs ∈ ls, cs.Nodup) →
      List.Pairwise (fun cs1 cs2 => ∀ a ∈ cs1, a ∉ cs2) ls →
      (∀ cs ∈ ls, ∀ c ∈ cs, c ∉ dictKeys m) →
      create_fieldsAux m idx ls = m ++ blocksFrom idx ls := by
  induction ls with
  | nil => intro m idx _ _ _; simp [create_fieldsAux, blocksFrom]
  | cons cs rest ih =>
    intro m idx hnd hpw hf
    have hstep : addShip m cs idx = m ++ cs.map (fun c => (c, idx)) :=
      addShip_fresh m cs idx (hnd cs (List.mem_cons_self _ _))
        (hf cs (List.mem_cons_self _ _))
    have hpw' := (List.pairwise_cons.mp hpw)
    have hf' : ∀ cs' ∈ rest, ∀ c ∈ cs', c ∉ dictKeys (m ++ cs.map (fun c => (c, idx))) := by
      intro cs' hcs' c hc
      rw [dictKeys_append, dictKeys_map_const]
      simp only [List.mem_append, not_or]
      exact ⟨hf cs' (List.mem_cons_of_mem _ hcs') c hc,
        fun hcc => hpw'.1 cs' hcs' c hcc hc⟩
    have : create_fieldsAux m idx (cs :: rest)
        = create_fieldsAux (addShip m cs idx) (idx + 1) rest := rfl
    rw [this, hstep,
      ih (m ++ cs.map (fun c => (c, idx))) (idx + 1)
        (fun cs' h => hnd cs' (List.mem_cons_of_mem _ h)) hpw'.2 hf',
      blocksFrom, List.append_assoc]

/-! ### Unfolding equations for the fire operations -/

theorem Ship.make_decks (s e : Cell) :
    (Ship.make s e).decks = (deckCells s e).map (fun c => (c, Deck.ALIVE)) := rfl

theorem Ship.make_drowned (s e : Cell) : (Ship.make s e).is_drowned = false := rfl

theorem Ship.make_keys (s e : Cell) :
    dictKeys (Ship.make s e).decks = deckCells s e := by
  rw [Ship.make_decks]
  exact dictKeys_map_cells _

theorem Ship.fire_of_drowned (sh : Ship) (c : Cell) (h : sh.is_drowned = true) :
    sh.fire c = some sh := by
  simp [Ship.fire, h]

theorem Ship.fire_keyError (sh : Ship) (c : Cell)
    (h1 : sh.is_drowned = false) (h2 : dictGet? sh.decks c = none) :
    sh.fire c = none := by
  simp [Ship.fire, h1, h2]

theorem Ship.fire_eq (sh : Ship) (c : Cell) (st : Deck)
    (h1 : sh.is_drowned = false) (h2 : dictGet? sh.decks c = some st) :
    sh.fire c =
      (if (dictInsert sh.decks c st.next).all (fun p => p.2 = Deck.HIT) then
        some ⟨(dictInsert sh.decks c st.next).map (fun p => (p.1, p.2.next)), true⟩
      else some ⟨dictInsert sh.decks c st.next, false⟩) := by
  simp [Ship.fire, h1, h2]

theorem Battleship.fire_miss (b : Battleship) (c : Cell)
    (h : dictGet? b.fields c = none) :
    b.fire c = some ("Miss!", b) := by
  simp [Battleship.fire, h]

theorem Battleship.fire_delegate (b : Battleship) (c : Cell) (i : ℕ) (sh1 : Ship)
    (h : dictGet? b.fields c = some i)
    (h2 : (b.ships.getD i defaultShip).fire c = some sh1) :
    b.fire c =
      (if sh1.is_drowned then some ("Sunk!", ⟨b.ships.set i sh1, b.fields⟩)
      else some ("Hit!", ⟨b.ships.set i sh1, b.fields⟩)) := by
  simp only [Battleship.fire, h]
  rw [h2]

theorem runShots_cons_eq (b : Battleship) (c : Cell) (r : String) (b1 : Battleship)
    (rest : List Cell) (outs : List String) (b2 : Battleship)
    (h1 : b.fire c = some (r, b1)) (h2 : runShots b1 rest = some (outs, b2)) :
    runShots b (c :: rest) = some (r :: outs, b2) := by
  simp [runShots, h1, h2]

/-! ### Board invariant and shot resolution -/

theorem make_ok_inv (specs : List (Cell × Cell)) (b : Battleship)
    (h : Battleship.make specs = .ok b) :
    b.ships = specs.map (fun sp => Ship.make sp.1 sp.2) ∧ b.fields = create_fields specs := by
  rcases hv : validate_field (create_fields specs) (specs.map (fun sp => Ship.make sp.1 sp.2)) with
    _ | e
  · simp only [Battleship.make, hv] at h
    obtain rfl : Battleship.mk (specs.map (fun sp => Ship.make sp.1 sp.2)) (create_fields specs)
        = b := by
      exact Except.ok.inj h
    exact ⟨rfl, rfl⟩
  · simp only [Battleship.make, hv] at h
    exact absurd h (by simp)

theorem boardInv_make (specs : List (Cell × Cell)) (b : Battleship)
    (h : Battleship.make specs = .ok b) : BoardInv b := by
  obtain ⟨hs, hf⟩ := make_ok_inv specs b h
  intro p hp
  rw [hf] at hp
  rcases mem_create_fieldsAux (specs.map shipCells) [] 0 p hp with h1 | h1
  · simp at h1
  · obtain ⟨j, hj, hv, hm⟩ := h1
    rw [List.length_map] at hj
    have hv0 : p.2 = j := by omega
    rw [hv0, hs]
    constructor
    · rw [List.length_map]
      exact hj
    · rw [getD_map_make specs j hj, Ship.make_keys]
      have h2 : (specs.map shipCells).getD j [] = shipCells (specs.getD j ((0, 0), (0, 0))) :=
        getD_map_lt shipCells specs j [] ((0, 0), (0, 0)) hj
      rw [h2] at hm
      exact hm

theorem dictKeys_map_next (m : List (Cell × Deck)) :
    dictKeys (m.map (fun p => (p.1, p.2.next))) = dictKeys m := by
  induction m with
  | nil => rfl
  | cons p t ih =>
    simp only [dictKeys, List.map_cons] at ih ⊢
    rw [ih]

theorem shipFire_keys (sh sh' : Ship) (c : Cell) (h : sh.fire c = some sh') :
    dictKeys sh'.decks = dictKeys sh.decks := by
  by_cases hd : sh.is_drowned
  · rw [Ship.fire_of_drowned sh c hd] at h
    obtain rfl : sh = sh' := Option.some_injective _ h
    rfl
  · rw [Bool.not_eq_true] at hd
    rcases hg : dictGet? sh.decks c with _ | st
    · rw [Ship.fire_keyError sh c hd hg] at h
      exact absurd h (by simp)
    · rw [Ship.fire_eq sh c st hd hg] at h
      have hmem : c ∈ dictKeys sh.decks :=
        (dictGet?_isSome_iff sh.decks c).mp (by rw [hg]; rfl)
      have hkeys : dictKeys (dictInsert sh.decks c st.next) = dictKeys sh.decks :=
        dictKeys_insert_mem sh.decks c st.next hmem
      by_cases ha : (dictInsert sh.decks c st.next).all (fun p => p.2 = Deck.HIT)
      · rw [if_pos ha] at h
        obtain rfl : _ = sh' := Option.some_injective _ h
        rw [← hkeys]
        exact dictKeys_map_next _
      · rw [if_neg ha] at h
        obtain rfl : _ = sh' := Option.some_injective _ h
        exact hkeys

theorem fire_total (b : Battleship) (hinv : BoardInv b) (c : Cell) :
    ∃ r b', b.fire c = some (r, b')
      ∧ (r = "Miss!" ∨ r = "Hit!" ∨ r = "Sunk!")
      ∧ BoardInv b' ∧ b'.fields = b.fields
      ∧ (dictGet? b.fields c = none → r = "Miss!" ∧ b' = b) := by
  rcases hl : dictGet? b.fields c with _ | i
  · exact ⟨"Miss!", b, Battleship.fire_miss b c hl, Or.inl rfl, hinv, rfl,
      fun _ => ⟨rfl, rfl⟩⟩
  · have hmem : (c, i) ∈ b.fields := mem_of_dictGet?_eq_some b.fields c i hl
    obtain ⟨hilen, hikeys⟩ := hinv (c, i) hmem
    have hsome : ∃ sh', (b.ships.getD i defaultShip).fire c = some sh' := by
      by_cases hd : (b.ships.getD i defaultShip).is_drowned
      · exact ⟨_, Ship.fire_of_drowned _ c hd⟩
      · rw [Bool.not_eq_true] at hd
        rcases hg : dictGet? (b.ships.getD i defaultShip).decks c with _ | st
        · exact absurd ((dictGet?_eq_none_iff _ c).mp hg) (by simpa using hikeys)
        · rw [Ship.fire_eq _ c st hd hg]
          by_cases ha : (dictInsert (b.ships.getD i defaultShip).decks c st.next).all
              (fun p => p.2 = Deck.HIT)
          · exact ⟨_, by rw [if_pos ha]⟩
          · exact ⟨_, by rw [if_neg ha]⟩
    obtain ⟨sh', hsh'⟩ := hsome
    have hinv' : BoardInv ⟨b.ships.set i sh', b.fields⟩ := by
      intro p hp
      obtain ⟨hplen, hpkeys⟩ := hinv p hp
      constructor
      · simpa using hplen
      · by_cases hpi : p.2 = i
        · rw [hpi]
          have h1 : (b.ships.set i sh').getD i defaultShip = sh' :=
            getD_set_self b.ships i sh' defaultShip hilen
          show p.1 ∈ dictKeys ((Battleship.mk (b.ships.set i sh') b.fields).ships.getD i
            defaultShip).decks
          rw [show (Battleship.mk (b.ships.set i sh') b.fields).ships = b.ships.set i sh'
            from rfl, h1, shipFire_keys _ _ _ hsh']
          rw [hpi] at hpkeys
          exact hpkeys
        · have h1 : (b.ships.set i sh').getD p.2 defaultShip = b.ships.getD p.2 defaultShip :=
            getD_set_ne b.ships i p.2 sh' defaultShip (fun he => hpi (he ▸ rfl))
          show p.1 ∈ dictKeys ((b.ships.set i sh').getD p.2 defaultShip).decks
          rw [h1]
          exact hpkeys
    by_cases hdr : sh'.is_drowned
    · refine ⟨"Sunk!", ⟨b.ships.set i sh', b.fields⟩, ?_, Or.inr (Or.inr rfl), hinv', rfl,
        fun hnone => absurd hnone (by simp)⟩
      rw [Battleship.fire_delegate b c i sh' hl hsh', if_pos hdr]
    · refine ⟨"Hit!", ⟨b.ships.set i sh', b.fields⟩, ?_, Or.inr (Or.inl rfl), hinv', rfl,
        fun hnone => absurd hnone (by simp)⟩
      rw [Battleship.fire_delegate b c i sh' hl hsh', if_neg hdr]

theorem runShots_total (shots : List Cell) (b : Battleship) (hinv : BoardInv b) :
    ∃ outs b', runShots b shots = some (outs, b')
      ∧ BoardInv b' ∧ b'.fields = b.fields
      ∧ ∀ r ∈ outs, r = "Miss!" ∨ r = "Hit!" ∨ r = "Sunk!" := by
  induction shots generalizing b with
  | nil => exact ⟨[], b, rfl, hinv, rfl, by simp⟩
  | cons c rest ih =>
    obtain ⟨r, b1, hfire, hr, hinv1, hf1, -⟩ := fire_total b hinv c
    obtain ⟨outs, b2, hrun, hinv2, hf2, houts⟩ := ih b1 hinv1
    refine ⟨r :: outs, b2, runShots_cons_eq b c r b1 rest outs b2 hfire hrun, hinv2,
      by rw [hf2, hf1], ?_⟩
    intro x hx
    rcases List.mem_cons.mp hx with h1 | h1
    · exact h1 ▸ hr
    · exact houts x h1

/-! ### Geometry of `create_decks` -/

theorem deckCells_horizontal (r c1 c2 : ℤ) (h : c1 ≤ c2) :
    deckCells (r, c1) (r, c2) = walkCols (r, c1) (r, c2) := by
  have hrows : walkRows (r, c1) (r, c2) = [(r, c1)] := by
    have h0 : ((r, c2).1 - (r, c1).1 + 1).toNat = 1 := by simp
    rw [walkRows, h0, List.range_succ, List.range_zero]
    simp
  have hcols : (walkCols (r, c1) (r, c2)).foldl dictKeysAdd [] = walkCols (r, c1) (r, c2) := by
    have h1 := foldl_dictKeysAdd_fresh (walkCols (r, c1) (r, c2)) []
      (nodup_walkCols _ _) (by simp)
    simpa using h1
  have hmem : ((r, c1) : Cell) ∈ walkCols (r, c1) (r, c2) := by
    rw [mem_walkCols]
    exact ⟨rfl, le_refl _, h⟩
  rw [deckCells, hrows, List.foldl_append, hcols]
  simp [dictKeysAdd, hmem]

theorem deckCells_vertical (cc r1 r2 : ℤ) (h : r1 ≤ r2) :
    deckCells (r1, cc) (r2, cc) = walkRows (r1, cc) (r2, cc) := by
  have hcols : walkCols (r1, cc) (r2, cc) = [(r1, cc)] := by
    have h0 : ((r2, cc).2 - (r1, cc).2 + 1).toNat = 1 := by simp
    rw [walkCols, h0, List.range_succ, List.range_zero]
    simp
  obtain ⟨m, hm⟩ : ∃ m, ((r2, cc).1 - (r1, cc).1 + 1).toNat = m + 1 := by
    refine ⟨(r2 - r1).toNat, ?_⟩
    simp only []
    omega
  obtain ⟨tail, hsplit⟩ : ∃ tail, walkRows (r1, cc) (r2, cc) = (r1, cc) :: tail := by
    rw [walkRows, hm, List.range_succ_eq_map, List.map_cons]
    refine ⟨List.map ((fun (k : ℕ) => (((r1, cc) : Cell).1 + (k : ℤ), ((r1, cc) : Cell).2))
      ∘ Nat.succ) (List.range m), ?_⟩
    rw [List.map_map]
    norm_num
  have hnd := nodup_walkRows (r1, cc) (r2, cc)
  rw [hsplit] at hnd
  rcases List.nodup_cons.mp hnd with ⟨hhead, htail⟩
  rw [deckCells, hcols, hsplit]
  have h1 : List.foldl dictKeysAdd [] [((r1 : ℤ), (cc : ℤ))] = [(r1, cc)] := by
    simp [dictKeysAdd]
  rw [List.foldl_append, h1, List.foldl_cons]
  have h2 : dictKeysAdd [((r1 : ℤ), (cc : ℤ))] (r1, cc) = [(r1, cc)] := by
    simp [dictKeysAdd]
  rw [h2]
  have h3 := foldl_dictKeysAdd_fresh tail [((r1 : ℤ), (cc : ℤ))] htail (fun x hx => by
    simp only [List.mem_singleton]
    exact fun he => hhead (he ▸ hx))
  rw [h3]
  rfl

/-! ### Counting lemmas for the fleet-composition rule -/

theorem counts4_le (l : List ℕ) :
    l.count 1 + l.count 2 + l.count 3 + l.count 4 ≤ l.length := by
  induction l with
  | nil => simp
  | cons x t ih =>
    simp only [List.count_cons, List.length_cons, beq_iff_eq]
    split_ifs <;> omega

theorem all_mem_of_counts (l : List ℕ)
    (h : l.count 1 + l.count 2 + l.count 3 + l.count 4 = l.length) :
    ∀ x ∈ l, x = 1 ∨ x = 2 ∨ x = 3 ∨ x = 4 := by
  induction l with
  | nil => simp
  | cons y t ih =>
    have hle := counts4_le t
    simp only [List.count_cons, List.length_cons, beq_iff_eq] at h
    intro x hx
    rcases List.mem_cons.mp hx with rfl | hxt
    · split_ifs at h <;> omega
    · refine ih ?_ x hxt
      split_ifs at h <;> omega

theorem sum_eq_counts_weighted (l : List ℕ)
    (hall : ∀ x ∈ l, x = 1 ∨ x = 2 ∨ x = 3 ∨ x = 4) :
    l.sum = l.count 1 * 1 + l.count 2 * 2 + l.count 3 * 3 + l.count 4 * 4 := by
  induction l with
  | nil => simp
  | cons y t ih =>
    have hy := hall y (List.mem_cons_self _ _)
    have ht : ∀ x ∈ t, x = 1 ∨ x = 2 ∨ x = 3 ∨ x = 4 :=
      fun x hx => hall x (List.mem_cons_of_mem _ hx)
    simp only [List.sum_cons, List.count_cons, beq_iff_eq, ih ht]
    rcases hy with rfl | rfl | rfl | rfl <;> simp <;> omega

theorem counts_iff_perm (l : List ℕ) (hlen : l.length = 10) :
    (l.count 1 = 4 ∧ l.count 2 = 3 ∧ l.count 3 = 2 ∧ l.count 4 = 1)
      ↔ l.Perm requiredSizes := by
  constructor
  · rintro ⟨h1, h2, h3, h4⟩
    have hall := all_mem_of_counts l (by omega)
    apply List.perm_iff_count.mpr
    intro a
    by_cases ha1 : a = 1
    · subst ha1
      rw [h1]
      rfl
    · by_cases ha2 : a = 2
      · subst ha2
        rw [h2]
        rfl
      · by_cases ha3 : a = 3
        · subst ha3
          rw [h3]
          rfl
        · by_cases ha4 : a = 4
          · subst ha4
            rw [h4]
            rfl
          · have hz1 : l.count a = 0 := by
              apply List.count_eq_zero.mpr
              intro hmem
              rcases hall a hmem with h | h | h | h <;> tauto
            have hz2 : requiredSizes.count a = 0 := by
              apply List.count_eq_zero.mpr
              simp only [requiredSizes, List.mem_cons, List.not_mem_nil, or_false]
              tauto
            rw [hz1, hz2]
  · intro hperm
    refine ⟨?_, ?_, ?_, ?_⟩ <;> rw [hperm.count_eq] <;> rfl

theorem validate_ship_types_eq_none_iff (sizes : List ℕ) :
    validate_ship_types sizes = none
      ↔ (sizes.count 1 = 4 ∧ sizes.count 2 = 3 ∧ sizes.count 3 = 2 ∧ sizes.count 4 = 1) := by
  simp only [validate_ship_types, required_counts, validate_ship_types_loop]
  split_ifs <;> simp_all

theorem validate_ship_types_eq_some (sizes : List ℕ) (e : BattleshipError)
    (h : validate_ship_types sizes = some e) :
    ∃ s r, e = .shipTypesCount s r := by
  simp only [validate_ship_types, required_counts, validate_ship_types_loop] at h
  split_ifs at h
  · exact ⟨1, 4, (Option.some_injective _ h).symm⟩
  · exact ⟨2, 3, (Option.some_injective _ h).symm⟩
  · exact ⟨3, 2, (Option.some_injective _ h).symm⟩
  · exact ⟨4, 1, (Option.some_injective _ h).symm⟩

theorem validate_field_of_count (fields : List (Cell × ℕ)) (ships : List Ship)
    (h : (distinctShips fields).length ≠ 10) :
    validate_field fields ships = some .shipTotalCount := by
  unfold validate_field
  rw [if_pos h]

theorem validate_field_of_count10 (fields : List (Cell × ℕ)) (ships : List Ship)
    (h10 : (distinctShips fields).length = 10) :
    validate_field fields ships = validate_ship_types (boardShipSizes fields ships) := by
  unfold validate_field
  rw [if_neg (fun hne => hne h10)]
  rcases hv : validate_ship_types (boardShipSizes fields ships) with _ | e
  · rfl
  · rfl

/-! ### Claim theorems -/

/-- C1: the spec says construction of a board containing two distinct ships
in touching cells (1-cell ships at (5,5) and (5,6)) fails with the adjacency
error.  The code does not: `_validate_ship_placement` is an empty stub and
`ShipsTooCloseError` is never raised, so this fleet — whose index maps the
adjacent cells (5,5) and (5,6) to two distinct ships — constructs
successfully. -/
theorem C1_adjacency_not_enforced :
    cellsNear ((5 : ℤ), (5 : ℤ)) ((5 : ℤ), (6 : ℤ))
      ∧ dictGet? (create_fields c1Fleet) ((5 : ℤ), (5 : ℤ)) = some 6
      ∧ dictGet? (create_fields c1Fleet) ((5 : ℤ), (6 : ℤ)) = some 7
      ∧ makeOk c1Fleet = true :=
  ⟨by decide, rfl, rfl, rfl⟩

/-- C5: on any board state, firing a cell that the index routes to an
already-drowned ship returns "Sunk!" and leaves the whole board — in
particular every deck state of every ship — unchanged. -/
theorem C5_sunk_idempotent (b : Battleship) (c : Cell) (i : ℕ)
    (hc : c ∈ dictKeys (b.ships.getD i defaultShip).decks)
    (hl : dictGet? b.fields c = some i)
    (hd : (b.ships.getD i defaultShip).is_drowned = true) :
    b.fire c = some ("Sunk!", b) := by
  have hi : i < b.ships.length := by
    by_contra hni
    rw [List.getD_eq_default] at hd
    · exact absurd hd (by simp [defaultShip])
    · omega
  have hfire : (b.ships.getD i defaultShip).fire c = some (b.ships.getD i defaultShip) :=
    Ship.fire_of_drowned _ c hd
  rw [Battleship.fire_delegate b c i _ hl hfire, if_pos hd,
    set_getD_self b.ships i defaultShip hi]

/-- Witness for C5 at a concrete drowned one-ship board. -/
theorem C5_sunk_idempotent_witness :
    (((0 : ℤ), (0 : ℤ)) ∈ dictKeys (sunkBoard.ships.getD 0 defaultShip).decks)
      ∧ dictGet? sunkBoard.fields ((0 : ℤ), (0 : ℤ)) = some 0
      ∧ (sunkBoard.ships.getD 0 defaultShip).is_drowned = true
      ∧ sunkBoard.fire ((0 : ℤ), (0 : ℤ)) = some ("Sunk!", sunkBoard) :=
  ⟨by decide, by decide, by decide,
    C5_sunk_idempotent sunkBoard ((0 : ℤ), (0 : ℤ)) 0 (by decide) (by decide) (by decide)⟩

/-- C7: whenever the fully built index refers to a number of distinct ships
other than 10, construction fails with the total-count error — regardless of
any other rule violations, because the count check runs first. -/
theorem C7_fleet_size_first (specs : List (Cell × Cell))
    (h : (distinctShips (create_fields specs)).length ≠ 10) :
    Battleship.make specs = .error .shipTotalCount := by
  have hv := validate_field_of_count (create_fields specs)
    (specs.map (fun sp => Ship.make sp.1 sp.2)) h
  simp only [Battleship.make, hv]

/-- Witness for C7: a 9-ship fleet is rejected with the total-count error. -/
theorem C7_fleet_size_first_witness :
    (distinctShips (create_fields nineFleet)).length ≠ 10
      ∧ Battleship.make nineFleet = .error .shipTotalCount :=
  ⟨by decide, C7_fleet_size_first nineFleet (by decide)⟩

/-- C8 counterexample: the endpoints (5,7) and (5,3) lie on one row of the
grid, four columns apart, so the claim predicts a 5-cell deck mapping; the
code walks only forward from `start` and produces a single cell. -/
theorem C8_counterexample :
    inGrid ((5 : ℤ), (7 : ℤ)) ∧ inGrid ((5 : ℤ), (3 : ℤ))
      ∧ (Ship.make ((5 : ℤ), (7 : ℤ)) ((5 : ℤ), (3 : ℤ))).decks.length = 1
      ∧ (1 : ℕ) ≠ 4 + 1 :=
  ⟨by decide, by decide, rfl, by decide⟩

/-- C8 (amended): for endpoints on one row or one column, listed in
nondecreasing order along the differing axis, the deck mapping is non-empty
and its size is the axis distance plus one (one cell when start = end). -/
theorem C8_amended (s1 s2 e1 e2 : ℤ) (hs : inGrid (s1, s2)) (he : inGrid (e1, e2))
    (hline : (s1 = e1 ∧ s2 ≤ e2) ∨ (s2 = e2 ∧ s1 ≤ e1)) :
    (Ship.make (s1, s2) (e1, e2)).decks ≠ []
      ∧ (Ship.make (s1, s2) (e1, e2)).decks.length
          = (e1 - s1).toNat + (e2 - s2).toNat + 1 := by
  have hlen : (Ship.make (s1, s2) (e1, e2)).decks.length
      = (e1 - s1).toNat + (e2 - s2).toNat + 1 := by
    rw [Ship.make_decks, List.length_map]
    rcases hline with ⟨h1, h2⟩ | ⟨h1, h2⟩
    · subst h1
      rw [deckCells_horizontal s1 s2 e2 h2, length_walkCols]
      simp only []
      omega
    · subst h1
      rw [deckCells_vertical s2 s1 e1 h2, length_walkRows]
      simp only []
      omega
  refine ⟨?_, hlen⟩
  intro hnil
  rw [hnil, List.length_nil] at hlen
  omega

/-- Witness for C8 (amended) at the demo 4-cell ship (2,0)-(2,3). -/
theorem C8_amended_witness :
    inGrid ((2 : ℤ), (0 : ℤ)) ∧ inGrid ((2 : ℤ), (3 : ℤ))
      ∧ (((2 : ℤ) = 2 ∧ (0 : ℤ) ≤ 3) ∨ ((0 : ℤ) = 3 ∧ (2 : ℤ) ≤ 2))
      ∧ ((Ship.make ((2 : ℤ), (0 : ℤ)) ((2 : ℤ), (3 : ℤ))).decks ≠ []
        ∧ (Ship.make ((2 : ℤ), (0 : ℤ)) ((2 : ℤ), (3 : ℤ))).decks.length
            = ((2 : ℤ) - 2).toNat + ((3 : ℤ) - 0).toNat + 1) :=
  ⟨by decide, by decide, by decide,
    C8_amended 2 0 2 3 (by decide) (by decide) (by decide)⟩

/-- C9 counterexample: the endpoints (0,0) and (1,1) differ on both axes,
yet `Ship` construction does not fail; it produces the L-shaped three-cell
deck mapping of the two start-anchored walks. -/
theorem C9_counterexample :
    ((0 : ℤ) ≠ (1 : ℤ)) ∧ ((0 : ℤ) ≠ (1 : ℤ))
      ∧ (Ship.make ((0 : ℤ), (0 : ℤ)) ((1 : ℤ), (1 : ℤ))).decks
          = [(((0 : ℤ), (0 : ℤ)), Deck.ALIVE), (((0 : ℤ), (1 : ℤ)), Deck.ALIVE),
             (((1 : ℤ), (0 : ℤ)), Deck.ALIVE)] :=
  ⟨by decide, by decide, rfl⟩

/-- C9 (amended): for endpoints differing on both axes, construction raises
nothing; the occupied cells are exactly the union of the column walk along
the start row and the row walk along the start column. -/
theorem C9_amended (s e : Cell) (hdiag : s.1 ≠ e.1 ∧ s.2 ≠ e.2) :
    ∀ c : Cell, c ∈ Ship.cells (Ship.make s e)
      ↔ ((c.1 = s.1 ∧ s.2 ≤ c.2 ∧ c.2 ≤ e.2) ∨ (c.2 = s.2 ∧ s.1 ≤ c.1 ∧ c.1 ≤ e.1)) := by
  intro c
  rw [Ship.cells, Ship.make_keys, mem_deckCells, mem_walkCols, mem_walkRows]

/-- Witness for C9 (amended) at the diagonal endpoint pair (0,0)-(1,1). -/
theorem C9_amended_witness :
    (((0 : ℤ), (0 : ℤ)) : Cell).1 ≠ (((1 : ℤ), (1 : ℤ)) : Cell).1
      ∧ (∀ c : Cell, c ∈ Ship.cells (Ship.make ((0 : ℤ), (0 : ℤ)) ((1 : ℤ), (1 : ℤ)))
          ↔ ((c.1 = (((0 : ℤ), (0 : ℤ)) : Cell).1
                ∧ (((0 : ℤ), (0 : ℤ)) : Cell).2 ≤ c.2 ∧ c.2 ≤ (((1 : ℤ), (1 : ℤ)) : Cell).2)
            ∨ (c.2 = (((0 : ℤ), (0 : ℤ)) : Cell).2
                ∧ (((0 : ℤ), (0 : ℤ)) : Cell).1 ≤ c.1
                ∧ c.1 ≤ (((1 : ℤ), (1 : ℤ)) : Cell).1))) :=
  ⟨by decide, C9_amended ((0 : ℤ), (0 : ℤ)) ((1 : ℤ), (1 : ℤ)) ⟨by decide, by decide⟩⟩

/-- C3: on a constructed board, after any sequence of prior shots, firing
any coordinate never raises, returns exactly one of "Miss!", "Hit!",
"Sunk!", returns "Miss!" for every coordinate absent from the index, and —
when all indexed cells lie on the 10×10 grid — returns "Miss!" for every
off-grid coordinate. -/
theorem C3_fire_never_fails (specs : List (Cell × Cell)) (b0 : Battleship)
    (hmk : Battleship.make specs = .ok b0) (shots : List Cell) :
    ∃ outs b, runShots b0 shots = some (outs, b)
      ∧ (∀ r ∈ outs, r = "Miss!" ∨ r = "Hit!" ∨ r = "Sunk!")
      ∧ ∀ c : Cell, ∃ r b', b.fire c = some (r, b')
          ∧ (r = "Miss!" ∨ r = "Hit!" ∨ r = "Sunk!")
          ∧ (dictGet? b0.fields c = none → r = "Miss!")
          ∧ ((∀ p ∈ b0.fields, inGrid p.1) → ¬ inGrid c → r = "Miss!") := by
  have hinv := boardInv_make specs b0 hmk
  obtain ⟨outs, b, hrun, hinvb, hfb, houts⟩ := runShots_total shots b0 hinv
  refine ⟨outs, b, hrun, houts, ?_⟩
  intro c
  obtain ⟨r, b', hfire, hr, -, -, hmiss⟩ := fire_total b hinvb c
  refine ⟨r, b', hfire, hr, ?_, ?_⟩
  · intro hnone
    exact (hmiss (by rw [hfb]; exact hnone)).1
  · intro hgrid hout
    refine (hmiss ?_).1
    rw [hfb]
    refine (dictGet?_eq_none_iff b0.fields c).mpr ?_
    intro hmem
    obtain ⟨p, hp, hpe⟩ := List.mem_map.mp hmem
    exact hout (hpe ▸ hgrid p hp)

/-- Witness for C3 on the demo fleet, with in-grid, off-grid and repeated
shots among the priors. -/
theorem C3_fire_never_fails_witness :
    Battleship.make refFleet = .ok (makeD refFleet)
      ∧ ∃ outs b,
        runShots (makeD refFleet)
            [((0 : ℤ), (4 : ℤ)), ((99 : ℤ), (99 : ℤ)), ((2 : ℤ), (0 : ℤ)), ((2 : ℤ), (0 : ℤ))]
          = some (outs, b)
        ∧ (∀ r ∈ outs, r = "Miss!" ∨ r = "Hit!" ∨ r = "Sunk!")
        ∧ ∀ c : Cell, ∃ r b', b.fire c = some (r, b')
            ∧ (r = "Miss!" ∨ r = "Hit!" ∨ r = "Sunk!")
            ∧ (dictGet? (makeD refFleet).fields c = none → r = "Miss!")
            ∧ ((∀ p ∈ (makeD refFleet).fields, inGrid p.1) → ¬ inGrid c → r = "Miss!") :=
  ⟨rfl, C3_fire_never_fails refFleet (makeD refFleet) rfl
    [((0 : ℤ), (4 : ℤ)), ((99 : ℤ), (99 : ℤ)), ((2 : ℤ), (0 : ℤ)), ((2 : ℤ), (0 : ℤ))]⟩

/-- C6: when the index refers to exactly 10 distinct ships, construction
fails with the ship-types (composition) error exactly when the multiset of
the distinct ships' sizes differs from four 1s, three 2s, two 3s and one 4 —
including any size outside 1..4, although the check iterates only over the
four required sizes. -/
theorem C6_composition_iff (specs : List (Cell × Cell))
    (h10 : (distinctShips (create_fields specs)).length = 10) :
    (∃ s r, Battleship.make specs = .error (.shipTypesCount s r))
      ↔ ¬ (boardShipSizes (create_fields specs)
            (specs.map (fun sp => Ship.make sp.1 sp.2))).Perm requiredSizes := by
  have hlen : (boardShipSizes (create_fields specs)
      (specs.map (fun sp => Ship.make sp.1 sp.2))).length = 10 := by
    rw [boardShipSizes, List.length_map]
    exact h10
  have hval := validate_field_of_count10 (create_fields specs)
    (specs.map (fun sp => Ship.make sp.1 sp.2)) h10
  constructor
  · rintro ⟨s, r, hmk⟩ hperm
    have hcounts := (counts_iff_perm _ hlen).mpr hperm
    have hnone : validate_ship_types (boardShipSizes (create_fields specs)
        (specs.map (fun sp => Ship.make sp.1 sp.2))) = none :=
      (validate_ship_types_eq_none_iff _).mpr hcounts
    rw [hnone] at hval
    simp only [Battleship.make, hval] at hmk
    exact absurd hmk (by simp)
  · intro hnp
    rcases hv : validate_ship_types (boardShipSizes (create_fields specs)
        (specs.map (fun sp => Ship.make sp.1 sp.2))) with _ | e
    · exact absurd ((counts_iff_perm _ hlen).mp
        ((validate_ship_types_eq_none_iff _).mp hv)) hnp
    · obtain ⟨s, r, rfl⟩ := validate_ship_types_eq_some _ e hv
      refine ⟨s, r, ?_⟩
      rw [hv] at hval
      simp only [Battleship.make, hval]

/-- Witness for C6 on the demo fleet: the index has 10 distinct ships, the
size multiset matches, and indeed no composition error is raised. -/
theorem C6_composition_iff_witness :
    (distinctShips (create_fields refFleet)).length = 10
      ∧ ((∃ s r, Battleship.make refFleet = .error (.shipTypesCount s r))
        ↔ ¬ (boardShipSizes (create_fields refFleet)
              (refFleet.map (fun sp => Ship.make sp.1 sp.2))).Perm requiredSizes) :=
  ⟨by decide, C6_composition_iff refFleet (by decide)⟩

/-! ### Disjoint fleets: index structure -/

theorem create_fields_eq_blocks (specs : List (Cell × Cell))
    (hdis : List.Pairwise (fun cs1 cs2 => ∀ a ∈ cs1, a ∉ cs2) (specs.map shipCells)) :
    create_fields specs = blocksFrom 0 (specs.map shipCells) := by
  rw [create_fields]
  have hnodups : ∀ cs ∈ specs.map shipCells, cs.Nodup := by
    intro cs hcs
    obtain ⟨sp, -, rfl⟩ := List.mem_map.mp hcs
    exact deckCells_nodup _ _
  have hfresh : ∀ cs ∈ specs.map shipCells, ∀ c ∈ cs, c ∉ dictKeys ([] : List (Cell × ℕ)) := by
    intro cs _ c _
    simp [dictKeys]
  have h := create_fieldsAux_disjoint (specs.map shipCells) [] 0 hnodups hdis hfresh
  simpa using h

theorem dictGet?_owner (specs : List (Cell × Cell))
    (hdis : List.Pairwise (fun cs1 cs2 => ∀ a ∈ cs1, a ∉ cs2) (specs.map shipCells))
    (i : ℕ) (hi : i < specs.length) (c : Cell)
    (hc : c ∈ shipCells (specs.getD i defaultSpec)) :
    dictGet? (create_fields specs) c = some i := by
  apply dictGet?_of_mem _ _ _ (keysNodup_create_fields specs)
  rw [create_fields_eq_blocks specs hdis]
  refine (mem_blocksFrom _ 0 (c, i)).mpr ⟨i, ?_, by simp, ?_⟩
  · rw [List.length_map]
    exact hi
  · rw [getD_map_lt shipCells specs i [] defaultSpec hi]
    exact hc

/-- C2: a fleet of 10 specifications whose built ships have the exact size
distribution {1:4, 2:3, 3:2, 4:1} and pairwise non-near (hence non-adjacent
and non-overlapping) footprints constructs successfully, and the union of
all ships' occupied cells holds exactly 20 distinct coordinates. -/
theorem C2_valid_fleet_constructs (specs : List (Cell × Cell))
    (hlen : specs.length = 10)
    (hc1 : (specs.map (fun sp => (shipCells sp).length)).count 1 = 4)
    (hc2 : (specs.map (fun sp => (shipCells sp).length)).count 2 = 3)
    (hc3 : (specs.map (fun sp => (shipCells sp).length)).count 3 = 2)
    (hc4 : (specs.map (fun sp => (shipCells sp).length)).count 4 = 1)
    (hfar : List.Pairwise (fun cs1 cs2 => ∀ a ∈ cs1, ∀ d ∈ cs2, ¬ cellsNear a d)
        (specs.map shipCells)) :
    (∃ b, Battleship.make specs = .ok b)
      ∧ ((specs.map shipCells).flatten.dedup).length = 20 := by
  have hslen : (specs.map (fun sp => (shipCells sp).length)).length = 10 := by
    rw [List.length_map, hlen]
  have hall : ∀ x ∈ specs.map (fun sp => (shipCells sp).length),
      x = 1 ∨ x = 2 ∨ x = 3 ∨ x = 4 :=
    all_mem_of_counts _ (by omega)
  have hdis : List.Pairwise (fun cs1 cs2 => ∀ a ∈ cs1, a ∉ cs2) (specs.map shipCells) := by
    refine hfar.imp ?_
    intro cs1 cs2 hnear a ha hb
    exact hnear a ha a hb ⟨by simp, by simp⟩
  have hstruct := create_fields_eq_blocks specs hdis
  have hkeys : dictKeys (create_fields specs) = (specs.map shipCells).flatten := by
    rw [hstruct, dictKeys_blocksFrom]
  have hnodupU : (specs.map shipCells).flatten.Nodup := by
    rw [← hkeys]
    exact keysNodup_create_fields specs
  have hlenU : (specs.map shipCells).flatten.length = 20 := by
    have h1 : (specs.map shipCells).flatten.length = (dictKeys (create_fields specs)).length := by
      rw [hkeys]
    rw [h1, dictKeys, List.length_map, hstruct, length_blocksFrom, List.map_map]
    have hsum := sum_eq_counts_weighted (specs.map (fun sp => (shipCells sp).length)) hall
    have h2 : specs.map (List.length ∘ shipCells)
        = specs.map (fun sp => (shipCells sp).length) := rfl
    rw [h2, hsum, hc1, hc2, hc3, hc4]
  have hmemval : ∀ i : ℕ, (i ∈ (create_fields specs).map (fun p => p.2)) ↔ i < 10 := by
    intro i
    constructor
    · intro hmem
      obtain ⟨p, hp, hpe⟩ := List.mem_map.mp hmem
      rw [hstruct] at hp
      obtain ⟨j, hj, hv, -⟩ := (mem_blocksFrom _ 0 p).mp hp
      rw [List.length_map, hlen] at hj
      omega
    · intro hi
      have hilt : i < specs.length := by omega
      have hsz : (shipCells (specs.getD i defaultSpec)).length
          ∈ specs.map (fun sp => (shipCells sp).length) := by
        have hthis : (List.map (fun sp => (shipCells sp).length) specs).getD i 0
            = (shipCells (specs.getD i defaultSpec)).length :=
          getD_map_lt (fun sp => (shipCells sp).length) specs i 0 defaultSpec hilt
        rw [← hthis, List.getD_eq_getElem (List.map (fun sp => (shipCells sp).length) specs) 0
          (by rw [List.length_map]; exact hilt)]
        exact List.getElem_mem _
      have hpos : (shipCells (specs.getD i defaultSpec)).length ≥ 1 := by
        rcases hall _ hsz with h | h | h | h <;> omega
      obtain ⟨c, hc⟩ := List.exists_mem_of_ne_nil (shipCells (specs.getD i defaultSpec)) (by
        intro hnil
        rw [hnil] at hpos
        simp at hpos)
      have hmem2 : ((c, i) : Cell × ℕ) ∈ create_fields specs := by
        rw [hstruct]
        refine (mem_blocksFrom _ 0 (c, i)).mpr ⟨i, ?_, by simp, ?_⟩
        · rw [List.length_map]
          exact hilt
        · rw [getD_map_lt shipCells specs i [] defaultSpec hilt]
          exact hc
      exact List.mem_map.mpr ⟨(c, i), hmem2, rfl⟩
  have hperm : (distinctShips (create_fields specs)).Perm (List.range 10) := by
    refine (List.perm_ext_iff_of_nodup (List.nodup_dedup _) (List.nodup_range 10)).mpr ?_
    intro i
    rw [List.mem_dedup, List.mem_range]
    exact hmemval i
  have h10 : (distinctShips (create_fields specs)).length = 10 := by
    rw [hperm.length_eq, List.length_range]
  have hrange_map : (List.range 10).map
      (fun i => ((specs.map (fun sp => Ship.make sp.1 sp.2)).getD i defaultShip).decks.length)
      = specs.map (fun sp => (shipCells sp).length) := by
    apply List.ext_getElem
    · rw [List.length_map, List.length_range, List.length_map, hlen]
    · intro i hi1 hi2
      rw [List.getElem_map, List.getElem_range, List.getElem_map]
      have hilt : i < specs.length := by
        rw [List.length_map, List.length_range] at hi1
        omega
      rw [getD_map_make specs i hilt, Ship.make_decks, List.length_map]
      have hgd : specs.getD i defaultSpec = specs[i] := List.getD_eq_getElem specs defaultSpec hilt
      rw [← hgd]
      rfl
  have hsizes_perm : (boardShipSizes (create_fields specs)
      (specs.map (fun sp => Ship.make sp.1 sp.2))).Perm
        (specs.map (fun sp => (shipCells sp).length)) := by
    rw [boardShipSizes]
    refine (hperm.map _).trans ?_
    rw [hrange_map]
  have hnone : validate_ship_types (boardShipSizes (create_fields specs)
      (specs.map (fun sp => Ship.make sp.1 sp.2))) = none := by
    refine (validate_ship_types_eq_none_iff _).mpr ?_
    refine ⟨?_, ?_, ?_, ?_⟩ <;> rw [hsizes_perm.count_eq]
    · exact hc1
    · exact hc2
    · exact hc3
    · exact hc4
  have hval := validate_field_of_count10 (create_fields specs)
    (specs.map (fun sp => Ship.make sp.1 sp.2)) h10
  rw [hnone] at hval
  constructor
  · refine ⟨⟨specs.map (fun sp => Ship.make sp.1 sp.2), create_fields specs⟩, ?_⟩
    simp only [Battleship.make, hval]
  · rw [List.dedup_eq_self.mpr hnodupU, hlenU]

/-- Witness for C2 at the demo fleet. -/
theorem C2_valid_fleet_constructs_witness :
    refFleet.length = 10
      ∧ (refFleet.map (fun sp => (shipCells sp).length)).count 1 = 4
      ∧ (refFleet.map (fun sp => (shipCells sp).length)).count 2 = 3
      ∧ (refFleet.map (fun sp => (shipCells sp).length)).count 3 = 2
      ∧ (refFleet.map (fun sp => (shipCells sp).length)).count 4 = 1
      ∧ List.Pairwise (fun cs1 cs2 => ∀ a ∈ cs1, ∀ d ∈ cs2, ¬ cellsNear a d)
          (refFleet.map shipCells)
      ∧ ((∃ b, Battleship.make refFleet = .ok b)
        ∧ ((refFleet.map shipCells).flatten.dedup).length = 20) :=
  ⟨by decide, by decide, by decide, by decide, by decide, by decide,
    C2_valid_fleet_constructs refFleet (by decide) (by decide) (by decide) (by decide)
      (by decide) (by decide)⟩

/-! ### A saturated deck pins the ship un-drownable -/

theorem shipFire_sunk_invariant (sh sh' : Ship) (c e : Cell)
    (hd : sh.is_drowned = false) (hc : dictGet? sh.decks c = some Deck.SUNK)
    (h : sh.fire e = some sh') :
    sh'.is_drowned = false ∧ dictGet? sh'.decks c = some Deck.SUNK := by
  rcases hg : dictGet? sh.decks e with _ | st
  · rw [Ship.fire_keyError sh e hd hg] at h
    exact absurd h (by simp)
  · rw [Ship.fire_eq sh e st hd hg] at h
    have hc1 : dictGet? (dictInsert sh.decks e st.next) c = some Deck.SUNK := by
      by_cases hec : e = c
      · subst hec
        have hst : st = Deck.SUNK := by
          rw [hg] at hc
          exact Option.some_injective _ hc
      
        rw [dictGet?_insert_self, hst]
        rfl
      · rw [dictGet?_insert_ne sh.decks e c st.next (fun hh => hec hh.symm)]
        exact hc
    have hnotall : ¬ ((dictInsert sh.decks e st.next).all
        (fun p => p.2 = Deck.HIT)) = true := by
      intro hall
      have hmem := mem_of_dictGet?_eq_some _ c Deck.SUNK hc1
      have hval := List.all_eq_true.mp hall _ hmem
      simp at hval
    rw [if_neg hnotall] at h
    obtain rfl : _ = sh' := Option.some_injective _ h
    exact ⟨rfl, hc1⟩

theorem shipRun_sunk_invariant (shots : List Cell) (sh : Ship) (c : Cell)
    (hd : sh.is_drowned = false) (hc : dictGet? sh.decks c = some Deck.SUNK)
    (sh3 : Ship) (h : shipRun sh shots = some sh3) :
    sh3.is_drowned = false ∧ dictGet? sh3.decks c = some Deck.SUNK := by
  induction shots generalizing sh with
  | nil =>
    obtain rfl : sh = sh3 := Option.some_injective _ h
    exact ⟨hd, hc⟩
  | cons e rest ih =>
    rcases hf : sh.fire e with _ | sh1
    · rw [shipRun, hf] at h
      exact absurd h (by simp)
    · rw [shipRun, hf] at h
      obtain ⟨hd1, hc1⟩ := shipFire_sunk_invariant sh sh1 c e hd hc hf
      exact ih sh1 hd1 hc1 h

/-- C10: once a deck of a not-yet-drowned ship has been driven to `SUNK` by
firing its cell twice (while another deck is still `ALIVE`), the ship can
never drown: after any further fire sequence the drowned flag is still
false, the cell still reads `SUNK`, and any board whose index routes a cell
to this ship answers "Hit!" — never "Sunk!". -/
theorem C10_double_fire_never_sunk (sh : Ship) (c d : Cell)
    (hnd : keysNodup sh.decks)
    (hdr : sh.is_drowned = false)
    (hc : dictGet? sh.decks c = some Deck.ALIVE)
    (hd : dictGet? sh.decks d = some Deck.ALIVE)
    (hne : d ≠ c) :
    ∃ sh1 sh2, sh.fire c = some sh1
      ∧ sh1.is_drowned = false
      ∧ sh1.fire c = some sh2
      ∧ sh2.is_drowned = false
      ∧ dictGet? sh2.decks c = some Deck.SUNK
      ∧ ∀ shots sh3, shipRun sh2 shots = some sh3 →
          sh3.is_drowned = false
          ∧ dictGet? sh3.decks c = some Deck.SUNK
          ∧ ∀ (b : Battleship) (i : ℕ) (e : Cell) (r : String) (b' : Battleship),
              b.ships.getD i defaultShip = sh3 → dictGet? b.fields e = some i →
              b.fire e = some (r, b') → r = "Hit!" := by
  have hstep1 : sh.fire c
      = some ⟨dictInsert sh.decks c Deck.HIT, false⟩ := by
    rw [Ship.fire_eq sh c Deck.ALIVE hdr hc]
    have hd1 : dictGet? (dictInsert sh.decks c Deck.ALIVE.next) d = some Deck.ALIVE := by
      rw [dictGet?_insert_ne sh.decks c d Deck.ALIVE.next hne]
      exact hd
    have hnotall : ¬ ((dictInsert sh.decks c Deck.ALIVE.next).all
        (fun p => p.2 = Deck.HIT)) = true := by
      intro hall
      have hmem := mem_of_dictGet?_eq_some _ d Deck.ALIVE hd1
      have hval := List.all_eq_true.mp hall _ hmem
      simp at hval
    rw [if_neg hnotall]
    rfl
  set sh1 : Ship := ⟨dictInsert sh.decks c Deck.HIT, false⟩ with hsh1
  have hc1 : dictGet? sh1.decks c = some Deck.HIT := dictGet?_insert_self sh.decks c Deck.HIT
  have hd1 : dictGet? sh1.decks d = some Deck.ALIVE := by
    rw [hsh1]
    show dictGet? (dictInsert sh.decks c Deck.HIT) d = some Deck.ALIVE
    rw [dictGet?_insert_ne sh.decks c d Deck.HIT hne]
    exact hd
  have hstep2 : sh1.fire c = some ⟨dictInsert sh1.decks c Deck.SUNK, false⟩ := by
    rw [Ship.fire_eq sh1 c Deck.HIT rfl hc1]
    have hd2 : dictGet? (dictInsert sh1.decks c Deck.HIT.next) d = some Deck.ALIVE := by
      rw [dictGet?_insert_ne sh1.decks c d Deck.HIT.next hne]
      exact hd1
    have hnotall : ¬ ((dictInsert sh1.decks c Deck.HIT.next).all
        (fun p => p.2 = Deck.HIT)) = true := by
      intro hall
      have hmem := mem_of_dictGet?_eq_some _ d Deck.ALIVE hd2
      have hval := List.all_eq_true.mp hall _ hmem
      simp at hval
    rw [if_neg hnotall]
    rfl
  set sh2 : Ship := ⟨dictInsert sh1.decks c Deck.SUNK, false⟩ with hsh2
  have hc2 : dictGet? sh2.decks c = some Deck.SUNK := dictGet?_insert_self sh1.decks c Deck.SUNK
  refine ⟨sh1, sh2, hstep1, rfl, hstep2, rfl, hc2, ?_⟩
  intro shots sh3 hrun
  obtain ⟨hd3, hc3⟩ := shipRun_sunk_invariant shots sh2 c rfl hc2 sh3 hrun
  refine ⟨hd3, hc3, ?_⟩
  intro b i e r b' hship hlookup hbf
  rcases hf : sh3.fire e with _ | sh4
  · simp only [Battleship.fire, hlookup] at hbf
    rw [hship, hf] at hbf
    simp at hbf
  · obtain ⟨hd4, -⟩ := shipFire_sunk_invariant sh3 sh4 c e hd3 hc3 hf
    rw [Battleship.fire_delegate b e i sh4 hlookup (by rw [hship]; exact hf),
      if_neg (by rw [hd4]; exact Bool.false_ne_true)] at hbf
    have hpair := Option.some_injective _ hbf
    exact (show "Hit!" = r from congrArg Prod.fst hpair).symm

/-- Witness for C10 at a fresh two-deck ship, firing (0,0) twice. -/
theorem C10_double_fire_never_sunk_witness :
    keysNodup twoShip.decks
      ∧ twoShip.is_drowned = false
      ∧ dictGet? twoShip.decks ((0 : ℤ), (0 : ℤ)) = some Deck.ALIVE
      ∧ dictGet? twoShip.decks ((0 : ℤ), (1 : ℤ)) = some Deck.ALIVE
      ∧ ((((0 : ℤ), (1 : ℤ)) : Cell) ≠ ((0 : ℤ), (0 : ℤ)))
      ∧ (∃ sh1 sh2, twoShip.fire ((0 : ℤ), (0 : ℤ)) = some sh1
        ∧ sh1.is_drowned = false
        ∧ sh1.fire ((0 : ℤ), (0 : ℤ)) = some sh2
        ∧ sh2.is_drowned = false
        ∧ dictGet? sh2.decks ((0 : ℤ), (0 : ℤ)) = some Deck.SUNK
        ∧ ∀ shots sh3, shipRun sh2 shots = some sh3 →
            sh3.is_drowned = false
            ∧ dictGet? sh3.decks ((0 : ℤ), (0 : ℤ)) = some Deck.SUNK
            ∧ ∀ (b : Battleship) (i : ℕ) (e : Cell) (r : String) (b' : Battleship),
                b.ships.getD i defaultShip = sh3 → dictGet? b.fields e = some i →
                b.fire e = some (r, b') → r = "Hit!") :=
  ⟨by unfold keysNodup; decide, rfl, by decide, by decide, by decide,
    C10_double_fire_never_sunk twoShip ((0 : ℤ), (0 : ℤ)) ((0 : ℤ), (1 : ℤ))
      (by unfold keysNodup; decide) rfl (by decide) (by decide) (by decide)⟩

/-! ### Firing a fresh ship cell-by-cell -/

theorem markedShip_decks (cells fired : List Cell) :
    (markedShip cells fired).decks
      = cells.map (fun d => (d, if d ∈ fired then Deck.HIT else Deck.ALIVE)) := rfl

theorem markedShip_drowned (cells fired : List Cell) :
    (markedShip cells fired).is_drowned = false := rfl

theorem sunkShip_decks (cells : List Cell) :
    (sunkShip cells).decks = cells.map (fun d => (d, Deck.SUNK)) := rfl

theorem sunkShip_drowned (cells : List Cell) :
    (sunkShip cells).is_drowned = true := rfl

theorem fire_marked_step (cells fired : List Cell) (cc : Cell)
    (hnodc : cells.Nodup) (hcc : cc ∈ cells) (hccnf : cc ∉ fired)
    (hmiss : ∃ x, x ∈ cells ∧ x ∉ fired ++ [cc]) :
    (markedShip cells fired).fire cc = some (markedShip cells (fired ++ [cc])) := by
  have hget : dictGet? (markedShip cells fired).decks cc = some Deck.ALIVE := by
    rw [markedShip_decks, dictGet?_map_cells, if_pos hcc, if_neg hccnf]
  rw [Ship.fire_eq _ cc Deck.ALIVE (markedShip_drowned cells fired) hget, markedShip_decks,
    dictInsert_map_cells cells cc Deck.ALIVE.next hnodc hcc]
  obtain ⟨x, hx, hxn⟩ := hmiss
  have hxcc : x ≠ cc := by
    intro he
    exact hxn (by
      rw [he]
      exact List.mem_append_right fired (List.mem_singleton.mpr rfl))
  have hxf : x ∉ fired := fun hxf => hxn (List.mem_append_left _ hxf)
  have hnotall : ¬ ((cells.map (fun d =>
      (d, if d = cc then Deck.ALIVE.next else if d ∈ fired then Deck.HIT else Deck.ALIVE))).all
        (fun p => p.2 = Deck.HIT)) = true := by
    intro hall
    have hmem : (x, if x = cc then Deck.ALIVE.next
        else if x ∈ fired then Deck.HIT else Deck.ALIVE)
        ∈ cells.map (fun d =>
          (d, if d = cc then Deck.ALIVE.next else if d ∈ fired then Deck.HIT else Deck.ALIVE)) :=
      List.mem_map_of_mem _ hx
    have hval := List.all_eq_true.mp hall _ hmem
    rw [if_neg hxcc, if_neg hxf] at hval
    simp at hval
  rw [if_neg hnotall]
  have hdecks : cells.map (fun d =>
      (d, if d = cc then Deck.ALIVE.next else if d ∈ fired then Deck.HIT else Deck.ALIVE))
      = cells.map (fun d => (d, if d ∈ fired ++ [cc] then Deck.HIT else Deck.ALIVE)) := by
    apply List.map_congr_left
    intro d _
    by_cases hdc : d = cc
    · subst hdc
      rw [if_pos rfl, if_pos (List.mem_append_right _ (List.mem_singleton.mpr rfl))]
      rfl
    · rw [if_neg hdc]
      by_cases hdf : d ∈ fired
      · rw [if_pos hdf, if_pos (List.mem_append_left _ hdf)]
      · rw [if_neg hdf, if_neg (by
          simp only [List.mem_append, List.mem_singleton, not_or]
          exact ⟨hdf, hdc⟩)]
  rw [hdecks]
  rfl

theorem fire_marked_last (cells fired : List Cell) (cc : Cell)
    (hnodc : cells.Nodup) (hcc : cc ∈ cells) (hccnf : cc ∉ fired)
    (hcover : ∀ x ∈ cells, x ∈ fired ++ [cc]) :
    (markedShip cells fired).fire cc = some (sunkShip cells) := by
  have hget : dictGet? (markedShip cells fired).decks cc = some Deck.ALIVE := by
    rw [markedShip_decks, dictGet?_map_cells, if_pos hcc, if_neg hccnf]
  rw [Ship.fire_eq _ cc Deck.ALIVE (markedShip_drowned cells fired) hget, markedShip_decks,
    dictInsert_map_cells cells cc Deck.ALIVE.next hnodc hcc]
  have hval : ∀ d ∈ cells,
      (if d = cc then Deck.ALIVE.next else if d ∈ fired then Deck.HIT else Deck.ALIVE)
        = Deck.HIT := by
    intro d hd
    by_cases hdc : d = cc
    · rw [if_pos hdc]
      rfl
    · rw [if_neg hdc]
      have hdf : d ∈ fired := by
        rcases List.mem_append.mp (hcover d hd) with h | h
        · exact h
        · exact absurd (List.mem_singleton.mp h) hdc
      rw [if_pos hdf]
  have hall : ((cells.map (fun d =>
      (d, if d = cc then Deck.ALIVE.next else if d ∈ fired then Deck.HIT else Deck.ALIVE))).all
        (fun p => p.2 = Deck.HIT)) = true := by
    apply List.all_eq_true.mpr
    intro p hp
    obtain ⟨d, hd, rfl⟩ := List.mem_map.mp hp
    simp only [hval d hd]
    simp
  rw [if_pos hall, map_next_map_cells]
  have hdecks : cells.map (fun d =>
      (d, (if d = cc then Deck.ALIVE.next else if d ∈ fired then Deck.HIT else Deck.ALIVE).next)
      ) = cells.map (fun d => (d, Deck.SUNK)) := by
    apply List.map_congr_left
    intro d hd
    rw [hval d hd]
    rfl
  rw [hdecks]
  rfl

theorem runShots_cons_inv (b : Battleship) (c : Cell) (rest : List Cell)
    (o : List String) (b2 : Battleship)
    (h : runShots b (c :: rest) = some (o, b2)) :
    ∃ r b1 oo, b.fire c = some (r, b1) ∧ runShots b1 rest = some (oo, b2) ∧ o = r :: oo := by
  rcases hf : b.fire c with _ | p
  · rw [runShots, hf] at h
    exact absurd h (by simp)
  · obtain ⟨r, b1⟩ := p
    have h' : (match runShots b1 rest with
        | none => none
        | some (outs, bb) => some (r :: outs, bb)) = some (o, b2) := by
      rw [runShots, hf] at h
      exact h
    rcases hrun : runShots b1 rest with _ | q
    · rw [hrun] at h'
      exact absurd h' (by simp)
    · obtain ⟨oo, bb⟩ := q
      rw [hrun] at h'
      have hinj := Option.some_injective _ h'
      have hb : bb = b2 := congrArg Prod.snd hinj
      have ho : r :: oo = o := congrArg Prod.fst hinj
      rw [hb] at hrun
      exact ⟨r, b1, oo, rfl, hrun, ho.symm⟩

theorem runShots_append (xs ys : List Cell) (b : Battleship) (o1 : List String)
    (b1 : Battleship) (h1 : runShots b xs = some (o1, b1)) (o2 : List String)
    (b2 : Battleship) (h2 : runShots b1 ys = some (o2, b2)) :
    runShots b (xs ++ ys) = some (o1 ++ o2, b2) := by
  induction xs generalizing b o1 with
  | nil =>
    obtain ⟨ho, hb⟩ : ([] : List String) = o1 ∧ b = b1 := by
      have hinj := Option.some_injective _ h1
      exact ⟨congrArg Prod.fst hinj, congrArg Prod.snd hinj⟩
    rw [← ho]
    rw [← hb] at h2
    simpa using h2
  | cons c rest ih =>
    obtain ⟨r, bmid, oo, hf, hrun, ho⟩ := runShots_cons_inv b c rest o1 b1 h1
    have hrec := ih bmid oo hrun
    rw [ho, List.cons_append, List.cons_append]
    exact runShots_cons_eq b c r bmid (rest ++ ys) (oo ++ o2) b2 hf hrec

theorem run_marked (specs : List (Cell × Cell))
    (hdis : List.Pairwise (fun cs1 cs2 => ∀ a ∈ cs1, a ∉ cs2) (specs.map shipCells))
    (i : ℕ) (hi : i < specs.length)
    (ships0 : List Ship) (hlen0 : i < ships0.length)
    (p : List Cell) :
    ∀ fired,
      (∀ x ∈ fired ++ p, x ∈ shipCells (specs.getD i defaultSpec)) →
      (fired ++ p).Nodup →
      (∃ x, x ∈ shipCells (specs.getD i defaultSpec) ∧ x ∉ fired ++ p) →
      runShots ⟨ships0.set i (markedShip (shipCells (specs.getD i defaultSpec)) fired),
          create_fields specs⟩ p
        = some (List.replicate p.length "Hit!",
            ⟨ships0.set i (markedShip (shipCells (specs.getD i defaultSpec)) (fired ++ p)),
              create_fields specs⟩) := by
  induction p with
  | nil =>
    intro fired _ _ _
    simp [runShots]
  | cons cc rest ih =>
    intro fired hsub hnd hmiss
    have hassoc : (fired ++ [cc]) ++ rest = fired ++ cc :: rest := by simp
    have hcc : cc ∈ shipCells (specs.getD i defaultSpec) := hsub cc (by simp)
    have hccnf : cc ∉ fired := by
      rcases List.nodup_append.mp hnd with ⟨-, -, hdisj⟩
      intro hmem
      exact hdisj hmem (List.mem_cons_self _ _)
    have hmiss1 : ∃ x, x ∈ shipCells (specs.getD i defaultSpec) ∧ x ∉ fired ++ [cc] := by
      obtain ⟨x, hx1, hx2⟩ := hmiss
      refine ⟨x, hx1, ?_⟩
      intro hxm
      apply hx2
      rcases List.mem_append.mp hxm with h | h
      · exact List.mem_append_left _ h
      · exact List.mem_append_right _ (by
          rw [List.mem_singleton.mp h]
          exact List.mem_cons_self _ _)
    have hfire_ship := fire_marked_step (shipCells (specs.getD i defaultSpec)) fired cc
      (deckCells_nodup _ _) hcc hccnf hmiss1
    have hlookup : dictGet? (create_fields specs) cc = some i :=
      dictGet?_owner specs hdis i hi cc hcc
    have hgetD : (ships0.set i (markedShip (shipCells (specs.getD i defaultSpec)) fired)).getD i
        defaultShip = markedShip (shipCells (specs.getD i defaultSpec)) fired :=
      getD_set_self ships0 i _ defaultShip hlen0
    have hbf : (⟨ships0.set i (markedShip (shipCells (specs.getD i defaultSpec)) fired),
        create_fields specs⟩ : Battleship).fire cc
        = some ("Hit!", ⟨ships0.set i (markedShip (shipCells (specs.getD i defaultSpec))
            (fired ++ [cc])), create_fields specs⟩) := by
      rw [Battleship.fire_delegate _ cc i
        (markedShip (shipCells (specs.getD i defaultSpec)) (fired ++ [cc])) hlookup (by
          show ((ships0.set i (markedShip (shipCells (specs.getD i defaultSpec)) fired)).getD i
            defaultShip).fire cc = _
          rw [hgetD]
          exact hfire_ship)]
      rw [if_neg (by rw [markedShip_drowned]; exact Bool.false_ne_true)]
      rw [List.set_set]
    have hrec := ih (fired ++ [cc])
      (by rw [hassoc]; exact hsub)
      (by rw [hassoc]; exact hnd)
      (by rw [hassoc]; exact hmiss)
    have hcomb := runShots_cons_eq _ cc "Hit!" _ rest _ _ hbf hrec
    rw [← hassoc]
    rw [List.length_cons, List.replicate_succ]
    exact hcomb

/-- C4 (amended): on a constructed board whose ships' footprints are
pairwise disjoint, firing the cells of any ship (one with at least one deck)
once each, in any order, returns "Hit!" on every call before the last —
with the ship's drowned flag still false after each such call — and "Sunk!"
on the final call, after which every cell of that ship reads `SUNK`. -/
theorem C4_perm_fire_sinks (specs : List (Cell × Cell)) (b0 : Battleship)
    (hmk : Battleship.make specs = .ok b0)
    (hdis : List.Pairwise (fun cs1 cs2 => ∀ a ∈ cs1, a ∉ cs2) (specs.map shipCells))
    (i : ℕ) (hi : i < b0.ships.length)
    (perm : List Cell)
    (hperm : perm.Perm (Ship.cells (b0.ships.getD i defaultShip)))
    (hnonempty : perm ≠ []) :
    ∃ bf, runShots b0 perm
        = some (List.replicate (perm.length - 1) "Hit!" ++ ["Sunk!"], bf)
      ∧ (bf.ships.getD i defaultShip).is_drowned = true
      ∧ (∀ c ∈ perm, (bf.ships.getD i defaultShip).get_deck c = some Deck.SUNK)
      ∧ ∀ q c rest2, perm = q ++ c :: rest2 → rest2 ≠ [] →
          ∃ outs bp, runShots b0 (q ++ [c]) = some (outs, bp)
            ∧ (bp.ships.getD i defaultShip).is_drowned = false := by
  obtain ⟨hs, hf⟩ := make_ok_inv specs b0 hmk
  have hi' : i < specs.length := by
    rw [hs, List.length_map] at hi
    exact hi
  have hship0 : b0.ships.getD i defaultShip
      = Ship.make (specs.getD i defaultSpec).1 (specs.getD i defaultSpec).2 := by
    rw [hs]
    exact getD_map_make specs i hi'
  have hcellseq : Ship.cells (b0.ships.getD i defaultShip)
      = shipCells (specs.getD i defaultSpec) := by
    rw [hship0, Ship.cells, Ship.make_keys]
    rfl
  rw [hcellseq] at hperm
  have hnodc : (shipCells (specs.getD i defaultSpec)).Nodup := deckCells_nodup _ _
  have hnodp : perm.Nodup := (hperm.nodup_iff).mpr hnodc
  have hmemp : ∀ x ∈ perm, x ∈ shipCells (specs.getD i defaultSpec) :=
    fun x hx => hperm.mem_iff.mp hx
  have hmarked0 : markedShip (shipCells (specs.getD i defaultSpec)) []
      = b0.ships.getD i defaultShip := by
    rw [hship0]
    rfl
  have hb0 : b0 = ⟨b0.ships.set i (markedShip (shipCells (specs.getD i defaultSpec)) []),
      create_fields specs⟩ := by
    rw [hmarked0, set_getD_self b0.ships i defaultShip hi, ← hf]
  obtain ⟨front, lastc, hfl⟩ : ∃ front lastc, front ++ [lastc] = perm :=
    ⟨perm.dropLast, perm.getLast hnonempty, List.dropLast_append_getLast hnonempty⟩
  have hndfl : (front ++ [lastc]).Nodup := by
    rw [hfl]
    exact hnodp
  have hlastnf : lastc ∉ front := by
    rcases List.nodup_append.mp hndfl with ⟨-, -, hdisj⟩
    intro hmem
    exact hdisj hmem (List.mem_singleton.mpr rfl)
  have hlastmem : lastc ∈ shipCells (specs.getD i defaultSpec) :=
    hmemp lastc (by rw [← hfl]; exact List.mem_append_right _ (List.mem_singleton.mpr rfl))
  have hfrontsub : ∀ x ∈ front, x ∈ shipCells (specs.getD i defaultSpec) :=
    fun x hx => hmemp x (by rw [← hfl]; exact List.mem_append_left _ hx)
  have hfrun := run_marked specs hdis i hi' b0.ships hi front []
    (by intro x hx; simp only [List.nil_append] at hx; exact hfrontsub x hx)
    (by simpa using (List.nodup_append.mp hndfl).1)
    ⟨lastc, hlastmem, by simpa using hlastnf⟩
  simp only [List.nil_append] at hfrun
  have hcover : ∀ x ∈ shipCells (specs.getD i defaultSpec), x ∈ front ++ [lastc] := by
    intro x hx
    rw [hfl]
    exact hperm.mem_iff.mpr hx
  have hfire_last := fire_marked_last (shipCells (specs.getD i defaultSpec)) front lastc
    hnodc hlastmem hlastnf hcover
  have hlookup : dictGet? (create_fields specs) lastc = some i :=
    dictGet?_owner specs hdis i hi' lastc hlastmem
  have hbflast : (⟨b0.ships.set i (markedShip (shipCells (specs.getD i defaultSpec)) front),
      create_fields specs⟩ : Battleship).fire lastc
      = some ("Sunk!", ⟨b0.ships.set i (sunkShip (shipCells (specs.getD i defaultSpec))),
          create_fields specs⟩) := by
    rw [Battleship.fire_delegate _ lastc i (sunkShip (shipCells (specs.getD i defaultSpec)))
      hlookup (by
        show ((b0.ships.set i (markedShip (shipCells (specs.getD i defaultSpec)) front)).getD i
          defaultShip).fire lastc = _
        rw [getD_set_self b0.ships i _ defaultShip hi]
        exact hfire_last)]
    rw [if_pos (sunkShip_drowned _), List.set_set]
  have hlastrun : runShots (⟨b0.ships.set i
      (markedShip (shipCells (specs.getD i defaultSpec)) front), create_fields specs⟩ :
      Battleship) [lastc]
      = some (["Sunk!"], ⟨b0.ships.set i (sunkShip (shipCells (specs.getD i defaultSpec))),
          create_fields specs⟩) :=
    runShots_cons_eq _ lastc "Sunk!" _ [] [] _ hbflast rfl
  have hcomb := runShots_append front [lastc] _ _ _ hfrun _ _ hlastrun
  rw [hfl, ← hb0] at hcomb
  have hflen : front.length = perm.length - 1 := by
    have hlen := congrArg List.length hfl
    simp only [List.length_append, List.length_singleton] at hlen
    omega
  rw [hflen] at hcomb
  refine ⟨⟨b0.ships.set i (sunkShip (shipCells (specs.getD i defaultSpec))),
    create_fields specs⟩, hcomb, ?_, ?_, ?_⟩
  · show ((b0.ships.set i (sunkShip (shipCells (specs.getD i defaultSpec)))).getD i
      defaultShip).is_drowned = true
    rw [getD_set_self b0.ships i _ defaultShip hi]
    exact sunkShip_drowned _
  · intro c hcperm
    show ((b0.ships.set i (sunkShip (shipCells (specs.getD i defaultSpec)))).getD i
      defaultShip).get_deck c = some Deck.SUNK
    rw [getD_set_self b0.ships i _ defaultShip hi, Ship.get_deck, sunkShip_decks,
      dictGet?_map_cells, if_pos (hmemp c hcperm)]
  · intro q c rest2 hsplit hne2
    have hcons : q ++ c :: rest2 = (q ++ [c]) ++ rest2 := by simp
    have hndq : ((q ++ [c]) ++ rest2).Nodup := by
      rw [← hcons, ← hsplit]
      exact hnodp
    obtain ⟨y, hy⟩ := List.exists_mem_of_ne_nil rest2 hne2
    have hqcsub : ∀ x ∈ ([] : List Cell) ++ (q ++ [c]),
        x ∈ shipCells (specs.getD i defaultSpec) := by
      intro x hx
      simp only [List.nil_append] at hx
      apply hmemp
      rw [hsplit]
      rcases List.mem_append.mp hx with h | h
      · exact List.mem_append_left _ h
      · exact List.mem_append_right _ (by
          rw [List.mem_singleton.mp h]
          exact List.mem_cons_self _ _)
    have hmissq : ∃ x, x ∈ shipCells (specs.getD i defaultSpec)
        ∧ x ∉ ([] : List Cell) ++ (q ++ [c]) := by
      refine ⟨y, hmemp y (by
        rw [hsplit]
        exact List.mem_append_right _ (List.mem_cons_of_mem _ hy)), ?_⟩
      simp only [List.nil_append]
      rcases List.nodup_append.mp hndq with ⟨-, -, hdisj⟩
      intro hmem
      exact hdisj hmem hy
    have hqrun := run_marked specs hdis i hi' b0.ships hi (q ++ [c]) [] hqcsub
      (by simpa using (List.nodup_append.mp hndq).1) hmissq
    simp only [List.nil_append] at hqrun
    rw [← hb0] at hqrun
    refine ⟨_, _, hqrun, ?_⟩
    show ((b0.ships.set i (markedShip (shipCells (specs.getD i defaultSpec))
      (q ++ [c]))).getD i defaultShip).is_drowned = false
    rw [getD_set_self b0.ships i _ defaultShip hi]
    exact markedShip_drowned _ _

/-- C4 counterexample: the overlap fleet passes validation (the index still
refers to 10 distinct ships with the required size counts), yet firing both
occupied cells of ship 3 — whose footprint is (0,0),(0,1) — answers
"Hit!","Hit!" rather than ending in "Sunk!", because the index routes (0,1)
to the overlapping ship 4. -/
theorem C4_counterexample :
    makeOk c4Fleet = true
      ∧ Ship.cells ((makeD c4Fleet).ships.getD 3 defaultShip)
          = [((0 : ℤ), (0 : ℤ)), ((0 : ℤ), (1 : ℤ))]
      ∧ (runShots (makeD c4Fleet) [((0 : ℤ), (0 : ℤ)), ((0 : ℤ), (1 : ℤ))]).map
          (fun p => p.1) = some ["Hit!", "Hit!"]
      ∧ (some ["Hit!", "Hit!"] : Option (List String))
          ≠ some (List.replicate ((2 : ℕ) - 1) "Hit!" ++ ["Sunk!"]) :=
  ⟨rfl, rfl, rfl, by decide⟩

/-- Witness for C4 (amended): sinking the demo 4-cell ship in reverse order. -/
theorem C4_perm_fire_sinks_witness :
    Battleship.make refFleet = .ok (makeD refFleet)
      ∧ List.Pairwise (fun cs1 cs2 => ∀ a ∈ cs1, a ∉ cs2) (refFleet.map shipCells)
      ∧ 0 < (makeD refFleet).ships.length
      ∧ refQuadPerm.Perm (Ship.cells ((makeD refFleet).ships.getD 0 defaultShip))
      ∧ refQuadPerm ≠ []
      ∧ (∃ bf, runShots (makeD refFleet) refQuadPerm
            = some (List.replicate (refQuadPerm.length - 1) "Hit!" ++ ["Sunk!"], bf)
        ∧ (bf.ships.getD 0 defaultShip).is_drowned = true
        ∧ (∀ c ∈ refQuadPerm, (bf.ships.getD 0 defaultShip).get_deck c = some Deck.SUNK)
        ∧ ∀ q c rest2, refQuadPerm = q ++ c :: rest2 → rest2 ≠ [] →
            ∃ outs bp, runShots (makeD refFleet) (q ++ [c]) = some (outs, bp)
              ∧ (bp.ships.getD 0 defaultShip).is_drowned = false) :=
  ⟨rfl, by decide, by decide, by decide, by decide,
    C4_perm_fire_sinks refFleet (makeD refFleet) rfl (by decide) 0 (by decide)
      refQuadPerm (by decide) (by decide)⟩
